import Mathlib

/-! Coyotos interrupt management.

A shallow embedding of `src/sys/arch/i386/kernel/ioapic.c` (the I/O APIC
driver) and `src/sys/caps/cap_IrqCtl.c` (the IrqCtl capability handler),
followed by the properties proved about them.

Conventions of the embedding:

* the kernel's global variables are the fields of `KState`, and every C
  function becomes a function on `KState` (or on the part of it that the
  function touches);
* a pointer into `VectorMap` is the index of the slot, a pointer into the
  `ioapic` registry is the index of the controller, `NULL` is `none`;
* a function returns `none` where the C code faults (a failed `assert`,
  `fatal`, a null or out-of-table access);
* spinlocks and vector locks are not represented: every function body is
  one critical section of a sequential execution;
* IRQ numbers and pins are natural numbers (`irq_t` is declared in a header
  that is not among the source files); the unsigned difference
  `vi->irq - vi->ctrlr->baseIRQ`, assigned to a `size_t`, is taken in 32-bit
  arithmetic and wraps when `irq` is below `baseIRQ` (`pinOf`), and the
  register-select value, a `uint32_t`, is reduced modulo `2 ^ 32`;
* the reverse index `IrqVector`, declared elsewhere, is a map defined on
  every IRQ number;
* register contents are truncated to 32 bits where the code reads or writes
  them, bit-field contents to the width of the field where the code assigns
  them.
-/

namespace Coyotos

/-! ## Data model -/

/-- Modelled from the spec: the vector kinds of `kerninc/vector.h` (not among the
source files). The sources name `vt_Unbound` and `vt_Interrupt`; every other kind is
`vt_Other`. -/
inductive VecType where
  | vt_Unbound
  | vt_Interrupt
  | vt_Other
  deriving DecidableEq, Repr

/-- Modelled from the spec: trigger mode of a vector, as used by `ioapic.c`. -/
inductive VecMode where
  | VEC_MODE_FROMBUS
  | VEC_MODE_EDGE
  | VEC_MODE_LEVEL
  deriving DecidableEq, Repr

/-- Modelled from the spec: polarity of a vector, as used by `ioapic.c`. -/
inductive VecLevel where
  | VEC_LEVEL_FROMBUS
  | VEC_LEVEL_ACTHIGH
  | VEC_LEVEL_ACTLOW
  deriving DecidableEq, Repr

/-- Modelled from the spec: the handler bound to a vector (`boundBehavior`,
one of Default and BoundIRQ); `cap_IrqCtl.c` stores `vh_BoundIRQ`. -/
inductive VecFn where
  | vh_Default
  | vh_BoundIRQ
  deriving DecidableEq, Repr

/-- Modelled from the spec: `VectorInfo` of `kerninc/vector.h` (not among the
source files), with the fields the two source files read or write. `stallQ` lists the
blocked invokers, oldest first; `ctrlr` is the index of the owning controller
in the `ioapic` registry. -/
structure VectorInfo where
  type : VecType
  mode : VecMode
  level : VecLevel
  irq : Nat
  enabled : Bool
  pending : Bool
  unmasked : Bool
  fn : VecFn
  stallQ : List Nat
  ctrlr : Option Nat
  deriving DecidableEq, Repr

/-- Modelled from the spec: the data fields of `IrqController` that `ioapic.c`
uses. The six operation pointers stored by `ioapic_register` are the same
`ioapic_*` functions for every registered controller, so a call through them
is a direct call in this embedding. -/
structure IrqController where
  baseIRQ : Nat
  nIRQ : Nat
  va : Nat
  deriving DecidableEq, Repr

/-- One register window: the index register at `va` and the registers that
the data window at `va + 0x10` selects. A register reads back what was last
written to it. -/
structure RegFile where
  index : Nat
  regs : Nat → Nat

/-- Calls into controller and IRQ helpers whose bodies are not among the source files:
the handler's invocation of them is recorded, in order. -/
inductive CtrlCall where
  | unmask (irq : Nat)
  | irq_DisableVector (irq : Nat)
  | irq_EnableVector (irq : Nat)
  deriving DecidableEq, Repr

/-- The global state the two files operate on. `ioapic` holds the registered
controllers (`nIoAPIC` is its length), `VectorMap` has `NUM_VECTOR` slots,
`mmio va` is the register window mapped at `va`, `outbLog` lists the port
writes `(value, port)` in order, `cpu0_lapic_id` is `archcpu_vec[0].lapic_id`. -/
structure KState where
  VectorMap : List VectorInfo
  IrqVector : Nat → Option Nat
  ioapic : List IrqController
  nGlobalIRQ : Nat
  mmio : Nat → RegFile
  calls : List CtrlCall
  lapic_requires_8259_disable : Bool
  i8259_is_shutdown : Bool
  outbLog : List (Nat × Nat)
  cpu0_lapic_id : Nat

/-! ## cap_IrqCtl.c -/

/-- Operation codes dispatched by `cap_IrqCtl`. -/
inductive OpCode where
  | OC_coyotos_Cap_getType
  | OC_coyotos_IrqCtl_getIrqWait
  | OC_coyotos_IrqCtl_bindIrq
  | OC_coyotos_IrqCtl_wait
  | OC_coyotos_IrqCtl_disable
  | OC_coyotos_IrqCtl_enable
  | other (code : Nat)
  deriving DecidableEq, Repr

/-- Capability types the handler writes. -/
inductive CapType where
  | ct_Null
  | ct_IrqWait
  deriving DecidableEq, Repr

/-- The part of a capability that `getIrqWait` fills in. -/
structure Capability where
  type : CapType
  protPayload : Nat
  deriving DecidableEq, Repr

/-- The invocation parameter block: the operation code, the 32-bit value
`get_iparam32` yields, whether the invocation carries the argument count
that `INV_REQUIRE_ARGS(iParam, 0)` demands, and the invoking process. -/
structure InvParam where
  opCode : OpCode
  iparam32 : Nat
  argsOK : Bool
  invoker : Nat
  deriving DecidableEq, Repr

/-- Result codes. -/
inductive ResultCode where
  | RC_coyotos_Cap_RequestError
  deriving DecidableEq, Repr

/-- How an invocation ends: `InvResult` with the number of capabilities
returned and those capabilities, an error message, the type message, the
transaction abandoned by `sched_abandon_transaction` (no result is delivered,
the invoker stays on the stall queue), or the invocation handed to `cap_Cap`. -/
inductive Outcome where
  | InvResult (nCap : Nat) (srcCap : List Capability)
  | InvErrorMessage (rc : ResultCode)
  | InvTypeMessage
  | abandoned
  | cap_Cap
  deriving DecidableEq, Repr

/-- Modelled from the spec: `irq_MapInterrupt` (not among the source files) is the reverse
lookup `irqNumber → VectorEntry`: the slot that `IrqVector[irq]` points to. -/
def irq_MapInterrupt (st : KState) (irq : Nat) : Option (Nat × VectorInfo) :=
  match st.IrqVector irq with
  | none => none
  | some v =>
    match st.VectorMap[v]? with
    | none => none
    | some vector => some (v, vector)

/-- The `irq >= NUM_IRQ` path shared by the five IrqCtl operations:
`sched_commit_point(); InvErrorMessage(iParam, RC_coyotos_Cap_RequestError)`. -/
def requestError (st : KState) : Option (Outcome × KState) :=
  some (Outcome.InvErrorMessage ResultCode.RC_coyotos_Cap_RequestError, st)

/-- The handler `cap_IrqCtl`. `NUM_IRQ` is the constant of that name (its
definition is not among the source files). The result is `none` where the
invocation does not carry the argument count `INV_REQUIRE_ARGS` demands (the
macro is not among the source files) and where the vector looked up is null.
`sched_commit_point` has no effect on the state represented here;
`sched_abandon_transaction` does not return: the invocation ends there,
without a result. The call `vector->ctrlr->unmask(vector)` is recorded in
`calls`, as are `irq_DisableVector` and `irq_EnableVector`. -/
def cap_IrqCtl (NUM_IRQ : Nat) (st : KState) (iParam : InvParam) :
    Option (Outcome × KState) :=
  match iParam.opCode with
  | OpCode.OC_coyotos_Cap_getType =>
    if !iParam.argsOK then none
    else some (Outcome.InvTypeMessage, st)
  | OpCode.OC_coyotos_IrqCtl_getIrqWait =>
    let irq := iParam.iparam32
    if !iParam.argsOK then none
    else if irq ≥ NUM_IRQ then requestError st
    else
      some (Outcome.InvResult 1 [{ type := CapType.ct_IrqWait, protPayload := irq }], st)
  | OpCode.OC_coyotos_IrqCtl_bindIrq =>
    let irq := iParam.iparam32
    if !iParam.argsOK then none
    else if irq ≥ NUM_IRQ then requestError st
    else
      match irq_MapInterrupt st irq with
      | none => none
      | some (v, vector) =>
        let vector1 := { vector with fn := VecFn.vh_BoundIRQ }
        some (Outcome.InvResult 0 [], { st with VectorMap := st.VectorMap.set v vector1 })
  | OpCode.OC_coyotos_IrqCtl_wait =>
    let irq := iParam.iparam32
    if !iParam.argsOK then none
    else if irq ≥ NUM_IRQ then requestError st
    else
      match irq_MapInterrupt st irq with
      | none => none
      | some (v, vector) =>
        if vector.pending = false then
          let vector1 := { vector with stallQ := vector.stallQ ++ [iParam.invoker] }
          if vector1.unmasked = false then
            let vector2 := { vector1 with unmasked := true }
            some (Outcome.abandoned,
              { st with VectorMap := st.VectorMap.set v vector2,
                        calls := st.calls ++ [CtrlCall.unmask irq] })
          else
            some (Outcome.abandoned, { st with VectorMap := st.VectorMap.set v vector1 })
        else
          let vector1 := { vector with pending := false }
          some (Outcome.InvResult 0 [], { st with VectorMap := st.VectorMap.set v vector1 })
  | OpCode.OC_coyotos_IrqCtl_disable =>
    let irq := iParam.iparam32
    if !iParam.argsOK then none
    else if irq ≥ NUM_IRQ then requestError st
    else
      some (Outcome.InvResult 0 [],
        { st with calls := st.calls ++ [CtrlCall.irq_DisableVector irq] })
  | OpCode.OC_coyotos_IrqCtl_enable =>
    let irq := iParam.iparam32
    if !iParam.argsOK then none
    else if irq ≥ NUM_IRQ then requestError st
    else
      some (Outcome.InvResult 0 [],
        { st with calls := st.calls ++ [CtrlCall.irq_EnableVector irq] })
  | OpCode.other _ => some (Outcome.cap_Cap, st)

/-! ## ioapic.c: register access -/

/-- Modelled from the spec: register-select values of `ioapic.h` (not among
the source files): identification, version, and the routing-entry low and
high registers, addressed as a linear function of the line number. -/
def IOAPIC_ID : Nat := 0

/-- Modelled from the spec: register-select value of the version register. -/
def IOAPIC_VERSION : Nat := 1

/-- Modelled from the spec: register-select value of the low word of the
routing entry of line `pin`. -/
def IOAPIC_ENTRYLO (pin : Nat) : Nat := 0x10 + 2 * pin

/-- Modelled from the spec: register-select value of the high word of the
routing entry of line `pin`. -/
def IOAPIC_ENTRYHI (pin : Nat) : Nat := 0x11 + 2 * pin

/-- Modelled from the spec: the version-register field the line count is
derived from (the maximum redirection entry, bits 16 to 23). -/
def IOAPIC_MAXREDIR_MASK : Nat := 0xff0000

/-- Modelled from the spec: shift of the maximum-redirection-entry field. -/
def IOAPIC_MAXREDIR_SHIFT : Nat := 16

/-- Port of the interrupt mode control register. -/
def IMCR : Nat := 0x22

/-- Data port of the interrupt mode control register. -/
def IMCR_DATA : Nat := 0x23

/-- Mode-select constant written to `IMCR`. -/
def IMCR_SET_INTERRUPT_MODE : Nat := 0x70

/-- Mode value selecting local-APIC delivery. -/
def IMCR_LAPIC_MODE : Nat := 1

/-- The registry `ioapic[3]`: registering a fourth controller is fatal. -/
def ioapic_register (st : KState) (baseIRQ va : Nat) : Option KState :=
  if st.ioapic.length = 3 then none
  else some { st with ioapic := st.ioapic ++ [{ baseIRQ := baseIRQ, nIRQ := 0, va := va }] }

/-- Select `reg` (a `uint32_t`) through the index register, then read the data
window. -/
def ioapic_read_reg (m : Nat → RegFile) (ctrlr : IrqController) (reg : Nat) :
    Nat × (Nat → RegFile) :=
  let m1 := Function.update m ctrlr.va { m ctrlr.va with index := reg % 2 ^ 32 }
  ((m1 ctrlr.va).regs (m1 ctrlr.va).index % 2 ^ 32, m1)

/-- Select `reg` (a `uint32_t`) through the index register, then write the
data window. -/
def ioapic_write_reg (m : Nat → RegFile) (ctrlr : IrqController) (reg val : Nat) :
    Nat → RegFile :=
  let m1 := Function.update m ctrlr.va { m ctrlr.va with index := reg % 2 ^ 32 }
  Function.update m1 ctrlr.va
    { m1 ctrlr.va with regs := Function.update (m1 ctrlr.va).regs (m1 ctrlr.va).index (val % 2 ^ 32) }

/-- The two raw words `u.raw.lo` and `u.raw.hi` of an `IoAPIC_Entry`. -/
structure IoAPIC_Entry where
  lo : Nat
  hi : Nat
  deriving DecidableEq, Repr

/-- The bit field of `width` bits at bit `pos` of the word `w`. -/
def bitsGet (w pos width : Nat) : Nat := w / 2 ^ pos % 2 ^ width

/-- Assignment of `val` to the bit field of `width` bits at bit `pos` of `w`:
the value is truncated to the field, the other bits of `w` are kept. -/
def bitsSet (w pos width val : Nat) : Nat :=
  w % 2 ^ pos + 2 ^ pos * (val % 2 ^ width) + 2 ^ (pos + width) * (w / 2 ^ (pos + width))

namespace IoAPIC_Entry

/-- Modelled from the spec: the bit fields `u.fld` of `IoAPIC_Entry`
(`ioapic.h`, not among the source files), a bit-exact mirror of the hardware register
pair: in the low word vector (bits 0-7), deliverMode (8-10), destMode (11),
deliveryStatus (12), polarity (13), remoteIRR (14), triggerMode (15),
masked (16); in the high word dest (bits 24-31). -/
def vector (e : IoAPIC_Entry) : Nat := bitsGet e.lo 0 8

/-- Field `deliverMode`, bits 8-10 of the low word. -/
def deliverMode (e : IoAPIC_Entry) : Nat := bitsGet e.lo 8 3

/-- Field `destMode`, bit 11 of the low word. -/
def destMode (e : IoAPIC_Entry) : Nat := bitsGet e.lo 11 1

/-- Field `deliveryStatus`, bit 12 of the low word. -/
def deliveryStatus (e : IoAPIC_Entry) : Nat := bitsGet e.lo 12 1

/-- Field `polarity`, bit 13 of the low word. -/
def polarity (e : IoAPIC_Entry) : Nat := bitsGet e.lo 13 1

/-- Field `remoteIRR`, bit 14 of the low word. -/
def remoteIRR (e : IoAPIC_Entry) : Nat := bitsGet e.lo 14 1

/-- Field `triggerMode`, bit 15 of the low word. -/
def triggerMode (e : IoAPIC_Entry) : Nat := bitsGet e.lo 15 1

/-- Field `masked`, bit 16 of the low word. -/
def masked (e : IoAPIC_Entry) : Nat := bitsGet e.lo 16 1

/-- Field `dest`, bits 24-31 of the high word. -/
def dest (e : IoAPIC_Entry) : Nat := bitsGet e.hi 24 8

/-- Assignment `e.u.fld.vector = v`. -/
def set_vector (e : IoAPIC_Entry) (v : Nat) : IoAPIC_Entry := { e with lo := bitsSet e.lo 0 8 v }

/-- Assignment `e.u.fld.deliverMode = v`. -/
def set_deliverMode (e : IoAPIC_Entry) (v : Nat) : IoAPIC_Entry :=
  { e with lo := bitsSet e.lo 8 3 v }

/-- Assignment `e.u.fld.destMode = v`. -/
def set_destMode (e : IoAPIC_Entry) (v : Nat) : IoAPIC_Entry :=
  { e with lo := bitsSet e.lo 11 1 v }

/-- Assignment `e.u.fld.polarity = v`. -/
def set_polarity (e : IoAPIC_Entry) (v : Nat) : IoAPIC_Entry :=
  { e with lo := bitsSet e.lo 13 1 v }

/-- Assignment `e.u.fld.triggerMode = v`. -/
def set_triggerMode (e : IoAPIC_Entry) (v : Nat) : IoAPIC_Entry :=
  { e with lo := bitsSet e.lo 15 1 v }

/-- Assignment `e.u.fld.masked = v`. -/
def set_masked (e : IoAPIC_Entry) (v : Nat) : IoAPIC_Entry :=
  { e with lo := bitsSet e.lo 16 1 v }

/-- Assignment `e.u.fld.dest = v`. -/
def set_dest (e : IoAPIC_Entry) (v : Nat) : IoAPIC_Entry := { e with hi := bitsSet e.hi 24 8 v }

end IoAPIC_Entry

/-- Read the low, then the high word of the routing entry of line `pin`. -/
def ioapic_read_entry (m : Nat → RegFile) (ctrlr : IrqController) (pin : Nat) :
    IoAPIC_Entry × (Nat → RegFile) :=
  let (lo, m1) := ioapic_read_reg m ctrlr (IOAPIC_ENTRYLO pin)
  let (hi, m2) := ioapic_read_reg m1 ctrlr (IOAPIC_ENTRYHI pin)
  ({ lo := lo, hi := hi }, m2)

/-- Write the low, then the high word of the routing entry of line `pin`. -/
def ioapic_write_entry (m : Nat → RegFile) (ctrlr : IrqController) (pin : Nat)
    (ent : IoAPIC_Entry) : Nat → RegFile :=
  let m1 := ioapic_write_reg m ctrlr (IOAPIC_ENTRYLO pin) ent.lo
  ioapic_write_reg m1 ctrlr (IOAPIC_ENTRYHI pin) ent.hi

/-- The routing entry of line `pin` as the registers of the controller's
window currently hold it (an observation, no register access). -/
def entryOf (m : Nat → RegFile) (ctrlr : IrqController) (pin : Nat) : IoAPIC_Entry :=
  { lo := (m ctrlr.va).regs (IOAPIC_ENTRYLO pin), hi := (m ctrlr.va).regs (IOAPIC_ENTRYHI pin) }

/-- Closed form of reading the routing entry of `pin`, changing it by `f` and
writing it back: what the window of `c` holds after `ioapic_read_entry`
followed by `ioapic_write_entry`. The two registers accessed are those the
32-bit register-select values of the entry name. -/
def rmwEntry (m : Nat → RegFile) (c : IrqController) (pin : Nat)
    (f : IoAPIC_Entry → IoAPIC_Entry) : Nat → RegFile :=
  Function.update m c.va
    { index := IOAPIC_ENTRYHI pin % 2 ^ 32,
      regs := Function.update
        (Function.update (m c.va).regs (IOAPIC_ENTRYLO pin % 2 ^ 32)
          ((f { lo := (m c.va).regs (IOAPIC_ENTRYLO pin % 2 ^ 32) % 2 ^ 32,
                hi := (m c.va).regs (IOAPIC_ENTRYHI pin % 2 ^ 32) % 2 ^ 32 }).lo % 2 ^ 32))
        (IOAPIC_ENTRYHI pin % 2 ^ 32)
        ((f { lo := (m c.va).regs (IOAPIC_ENTRYLO pin % 2 ^ 32) % 2 ^ 32,
              hi := (m c.va).regs (IOAPIC_ENTRYHI pin % 2 ^ 32) % 2 ^ 32 }).hi % 2 ^ 32) }

/-- The fields of the routing entry `e'` other than `masked` are those of `e`:
the named fields, the reserved bits 17-31 of the low word and the reserved
bits 0-23 of the high word. -/
def sameButMasked (e e' : IoAPIC_Entry) : Prop :=
  e'.vector = e.vector ∧ e'.deliverMode = e.deliverMode ∧ e'.destMode = e.destMode ∧
  e'.deliveryStatus = e.deliveryStatus ∧ e'.polarity = e.polarity ∧
  e'.remoteIRR = e.remoteIRR ∧ e'.triggerMode = e.triggerMode ∧ e'.dest = e.dest ∧
  bitsGet e'.lo 17 15 = bitsGet e.lo 17 15 ∧ bitsGet e'.hi 0 24 = bitsGet e.hi 0 24

/-- The fields of the routing entry `e'` other than `polarity` and
`triggerMode` are those of `e`: the named fields, the reserved bits 17-31 of
the low word and the reserved bits 0-23 of the high word. -/
def sameButPolTrig (e e' : IoAPIC_Entry) : Prop :=
  e'.vector = e.vector ∧ e'.deliverMode = e.deliverMode ∧ e'.destMode = e.destMode ∧
  e'.deliveryStatus = e.deliveryStatus ∧ e'.remoteIRR = e.remoteIRR ∧
  e'.masked = e.masked ∧ e'.dest = e.dest ∧
  bitsGet e'.lo 17 15 = bitsGet e.lo 17 15 ∧ bitsGet e'.hi 0 24 = bitsGet e.hi 0 24

/-! ## ioapic.c: controller operations

In each operation `ctrlr` is the controller `vi->ctrlr` points to. -/

/-- The line of a vector at its controller,
`size_t pin = vi->irq - vi->ctrlr->baseIRQ`: the difference of the two
unsigned values in 32-bit arithmetic. It is `irq - baseIRQ` when
`baseIRQ ≤ irq`, and wraps to `2 ^ 32 - (baseIRQ - irq)` when `irq` is below
`baseIRQ`. -/
def pinOf (irq baseIRQ : Nat) : Nat :=
  (irq % 2 ^ 32 + 2 ^ 32 - baseIRQ % 2 ^ 32) % 2 ^ 32

/-- The entry `ioapic_setup` writes back: polarity from `vi->level`, trigger
mode from `vi->mode`. -/
def setupEntry (vi : VectorInfo) (e : IoAPIC_Entry) : IoAPIC_Entry :=
  let e1 := if vi.level = VecLevel.VEC_LEVEL_ACTHIGH then e.set_polarity 0 else e.set_polarity 1
  if vi.mode = VecMode.VEC_MODE_EDGE then e1.set_triggerMode 0 else e1.set_triggerMode 1

/-- The operation `ioapic_setup`; `none` where one of its two assertions fails. -/
def ioapic_setup (m : Nat → RegFile) (ctrlr : IrqController) (vi : VectorInfo) :
    Option (Nat → RegFile) :=
  if vi.mode = VecMode.VEC_MODE_FROMBUS then none
  else if vi.level = VecLevel.VEC_LEVEL_FROMBUS then none
  else
    let pin := pinOf vi.irq ctrlr.baseIRQ
    let (e, m1) := ioapic_read_entry m ctrlr pin
    some (ioapic_write_entry m1 ctrlr pin (setupEntry vi e))

/-- The operation `ioapic_enable`. -/
def ioapic_enable (m : Nat → RegFile) (ctrlr : IrqController) (vi : VectorInfo) :
    Nat → RegFile :=
  let pin := pinOf vi.irq ctrlr.baseIRQ
  let (e, m1) := ioapic_read_entry m ctrlr pin
  ioapic_write_entry m1 ctrlr pin (e.set_masked 0)

/-- The operation `ioapic_disable`. -/
def ioapic_disable (m : Nat → RegFile) (ctrlr : IrqController) (vi : VectorInfo) :
    Nat → RegFile :=
  let pin := pinOf vi.irq ctrlr.baseIRQ
  let (e, m1) := ioapic_read_entry m ctrlr pin
  ioapic_write_entry m1 ctrlr pin (e.set_masked 1)

/-- Dereference of `vi->ctrlr`. -/
def ctrlrOf (st : KState) (vi : VectorInfo) : Option IrqController :=
  match vi.ctrlr with
  | none => none
  | some ci => st.ioapic[ci]?

/-- Modelled from the spec: `irq_Disable` (not among the source files)
disables the line of `irq`; disabling delegates to the `disable` operation of
the controller that owns the vector, which sets the hardware mask bit of the
line. -/
def irq_Disable (st : KState) (irq : Nat) : Option KState :=
  match irq_MapInterrupt st irq with
  | none => none
  | some (_, vector) =>
    match ctrlrOf st vector with
    | none => none
    | some ctrlr => some { st with mmio := ioapic_disable st.mmio ctrlr vector }

/-! ## ioapic.c: initialisation -/

/-- The scan `while (VectorMap[vec].type != vt_Unbound) vec++`, run over the
slots from the cursor `vec` on (the first argument is `VectorMap` without its
first `vec` slots). It is `none` where the scan leaves the table. -/
def scanUnbound : List VectorInfo → Nat → Option Nat
  | [], _ => none
  | v :: rest, vec =>
    if v.type ≠ VecType.vt_Unbound then scanUnbound rest (vec + 1) else some vec

/-- The slot contents `ioapic_ctrlr_init` stores for line `irq` of the
controller with registry index `ci`. -/
def boundSlot (slot : VectorInfo) (irq ci : Nat) : VectorInfo :=
  { slot with type := VecType.vt_Interrupt,
              mode := VecMode.VEC_MODE_FROMBUS,
              level := VecLevel.VEC_LEVEL_FROMBUS,
              irq := irq,
              enabled := false,
              ctrlr := some ci }

/-- One iteration of the loop over the pins in `ioapic_ctrlr_init`, entered
with the scan cursor `vec`; yields the state and the cursor it leaves. -/
def ctrlrInitPin (ci : Nat) (ctrlr : IrqController) (st : KState) (pin vec : Nat) :
    Option (KState × Nat) :=
  let irq := ctrlr.baseIRQ + pin
  match scanUnbound (st.VectorMap.drop vec) vec with
  | none => none
  | some vec1 =>
    match st.VectorMap[vec1]? with
    | none => none
    | some slot =>
      let st1 := { st with IrqVector := Function.update st.IrqVector irq (some vec1),
                           VectorMap := st.VectorMap.set vec1 (boundSlot slot irq ci) }
      match irq_Disable st1 irq with
      | none => none
      | some st2 => some (st2, vec1)

/-- The loop `for (pin = ...; pin < ctrlr->nIRQ; pin++)` with `k` iterations
left. -/
def ctrlrInitLoop (ci : Nat) (ctrlr : IrqController) : Nat → Nat → Nat → KState → Option KState
  | 0, _, _, st => some st
  | k + 1, pin, vec, st =>
    match ctrlrInitPin ci ctrlr st pin vec with
    | none => none
    | some (st1, vec1) => ctrlrInitLoop ci ctrlr k (pin + 1) vec1 st1

/-- The line count field of the version register value `ver`:
`(ver & IOAPIC_MAXREDIR_MASK) >> IOAPIC_MAXREDIR_SHIFT`. -/
def maxRedir (ver : Nat) : Nat := (ver &&& IOAPIC_MAXREDIR_MASK) >>> IOAPIC_MAXREDIR_SHIFT

/-- The part of `ioapic_ctrlr_init` before its loop: read the identification
and version registers, store `ctrlr->nIRQ = nInts + 1`, raise `nGlobalIRQ` to
`baseIRQ + nInts` if it is below. Yields the state and the updated controller. -/
def ctrlrInitHead (st : KState) (ci : Nat) (ctrlr : IrqController) : KState × IrqController :=
  let (_, m1) := ioapic_read_reg st.mmio ctrlr IOAPIC_ID
  let (ver, m2) := ioapic_read_reg m1 ctrlr IOAPIC_VERSION
  let nInts := maxRedir ver
  let ctrlr1 := { ctrlr with nIRQ := nInts + 1 }
  ({ st with mmio := m2,
             ioapic := st.ioapic.set ci ctrlr1,
             nGlobalIRQ := if ctrlr.baseIRQ + nInts > st.nGlobalIRQ
                           then ctrlr.baseIRQ + nInts else st.nGlobalIRQ }, ctrlr1)

/-- The function `ioapic_ctrlr_init(&ioapic[ci])`. -/
def ioapic_ctrlr_init (st : KState) (ci : Nat) : Option KState :=
  match st.ioapic[ci]? with
  | none => none
  | some ctrlr =>
    ctrlrInitLoop ci (ctrlrInitHead st ci ctrlr).2 (ctrlrInitHead st ci ctrlr).2.nIRQ 0 0
      (ctrlrInitHead st ci ctrlr).1

/-- The loop `for (i = ...; i < nIoAPIC; i++) ioapic_ctrlr_init(&ioapic[i])`
with `k` iterations left. -/
def initCtrlrs : Nat → Nat → KState → Option KState
  | 0, _, st => some st
  | k + 1, i, st =>
    match ioapic_ctrlr_init st i with
    | none => none
    | some st1 => initCtrlrs k (i + 1) st1

/-- The entry the routing loop of `ioapic_init` writes back for vector `vec`. -/
def routedEntry (e : IoAPIC_Entry) (vec lapic_id : Nat) : IoAPIC_Entry :=
  ((((e.set_vector vec).set_deliverMode 0).set_destMode 0).set_masked 1).set_dest lapic_id

/-- One iteration of the routing loop of `ioapic_init`, for vector `vec`. -/
def routeVector (st : KState) (vec : Nat) : Option KState :=
  match st.VectorMap[vec]? with
  | none => none
  | some slot =>
    if slot.type ≠ VecType.vt_Interrupt then some st
    else
      match ctrlrOf st slot with
      | none => none
      | some ctrlr =>
        let pin := pinOf slot.irq ctrlr.baseIRQ
        if slot.enabled ≠ false then none
        else
          let (e, m1) := ioapic_read_entry st.mmio ctrlr pin
          some { st with mmio := ioapic_write_entry m1 ctrlr pin
                                   (routedEntry e vec st.cpu0_lapic_id) }

/-- The routing loop `for (vec = ...; vec < NUM_VECTOR; vec++)` with `k`
iterations left. -/
def routeLoop : Nat → Nat → KState → Option KState
  | 0, _, st => some st
  | k + 1, vec, st =>
    match routeVector st vec with
    | none => none
    | some st1 => routeLoop k (vec + 1) st1

/-- The part of `ioapic_init` before its loop over the controllers:
`i8259_shutdown()` if `lapic_requires_8259_disable` is set. -/
def initEntry (st : KState) : KState :=
  if st.lapic_requires_8259_disable then { st with i8259_is_shutdown := true } else st

/-- The part of `ioapic_init` between its two loops: the two port writes
`outb(IMCR_SET_INTERRUPT_MODE, IMCR); outb(IMCR_LAPIC_MODE, IMCR_DATA)`. -/
def routeEntry (st1 : KState) : KState :=
  { st1 with outbLog := st1.outbLog ++
      [(IMCR_SET_INTERRUPT_MODE, IMCR), (IMCR_LAPIC_MODE, IMCR_DATA)] }

/-- The function `ioapic_init`; the blocks under `DEBUG_IOAPIC` (`if (0)`)
never run. `nIoAPIC` is the length of the registry, `NUM_VECTOR` the length of
the vector table. -/
def ioapic_init (st : KState) : Option KState :=
  match initCtrlrs (initEntry st).ioapic.length 0 (initEntry st) with
  | none => none
  | some st1 => routeLoop (routeEntry st1).VectorMap.length 0 (routeEntry st1)

/-- The register state between the two register writes of
`ioapic_write_entry`: the low word of the entry is written, the high word is
not yet. -/
def afterLoWrite (m : Nat → RegFile) (ctrlr : IrqController) (pin : Nat)
    (ent : IoAPIC_Entry) : Nat → RegFile :=
  ioapic_write_reg m ctrlr (IOAPIC_ENTRYLO pin) ent.lo

/-- The polarity, trigger-mode and masked fields of two routing entries agree. -/
def samePolTrigMask (e e' : IoAPIC_Entry) : Prop :=
  e'.polarity = e.polarity ∧ e'.triggerMode = e.triggerMode ∧ e'.masked = e.masked

/-- The register state inside `ioapic_setup` once `ioapic_write_entry` has
written the low word of the entry. -/
def setupAfterLo (m : Nat → RegFile) (c : IrqController) (vi : VectorInfo) : Nat → RegFile :=
  afterLoWrite (ioapic_read_entry m c (pinOf vi.irq c.baseIRQ)).2 c (pinOf vi.irq c.baseIRQ)
    (setupEntry vi (ioapic_read_entry m c (pinOf vi.irq c.baseIRQ)).1)

/-- The register state inside `ioapic_setup` once `ioapic_write_entry` has
also written the high word of the entry. -/
def setupAfterHi (m : Nat → RegFile) (c : IrqController) (vi : VectorInfo) : Nat → RegFile :=
  ioapic_write_reg (setupAfterLo m c vi) c (IOAPIC_ENTRYHI (pinOf vi.irq c.baseIRQ))
    (setupEntry vi (ioapic_read_entry m c (pinOf vi.irq c.baseIRQ)).1).hi

/-- The register state inside the routing loop of `ioapic_init`, for the
vector `vec` held by `slot`, once the low word of the entry is written. -/
def routeAfterLo (st : KState) (c : IrqController) (slot : VectorInfo) (vec : Nat) :
    Nat → RegFile :=
  afterLoWrite (ioapic_read_entry st.mmio c (pinOf slot.irq c.baseIRQ)).2 c (pinOf slot.irq c.baseIRQ)
    (routedEntry (ioapic_read_entry st.mmio c (pinOf slot.irq c.baseIRQ)).1 vec st.cpu0_lapic_id)

/-- The register state inside the routing loop of `ioapic_init` once the high
word of the entry is written as well. -/
def routeAfterHi (st : KState) (c : IrqController) (slot : VectorInfo) (vec : Nat) :
    Nat → RegFile :=
  ioapic_write_reg (routeAfterLo st c slot vec) c (IOAPIC_ENTRYHI (pinOf slot.irq c.baseIRQ))
    (routedEntry (ioapic_read_entry st.mmio c (pinOf slot.irq c.baseIRQ)).1 vec st.cpu0_lapic_id).hi

/-! ## Allocation of vectors as the specification words it -/

/-- The number of lines of controller `c` as its version register reports it
in the register state `m`. -/
def lineCount (m : Nat → RegFile) (c : IrqController) : Nat :=
  maxRedir ((m c.va).regs IOAPIC_VERSION % 2 ^ 32) + 1

/-- The number of `Unbound` slots of a vector table. -/
def countUnbound (vm : List VectorInfo) : Nat :=
  vm.countP (fun v => decide (v.type = VecType.vt_Unbound))

/-- The lowest index of the whole table whose slot is `Unbound`. -/
def firstUnbound (vm : List VectorInfo) : Option Nat :=
  vm.findIdx? (fun v => decide (v.type = VecType.vt_Unbound))

/-- The operation `allocateVector(controller, localLine)` in the words of the
specification: find the first `Unbound` slot of the table, mark it
`Interrupt` for `irqNumber = controller.baseIRQ + localLine` with trigger and
polarity from-bus and the controller recorded, leave every other slot as it
is, update the reverse index, and disable the line. -/
def allocateVector (st : KState) (ci : Nat) (ctrlr : IrqController) (pin : Nat) :
    Option KState :=
  match firstUnbound st.VectorMap with
  | none => none
  | some v =>
    match st.VectorMap[v]? with
    | none => none
    | some slot =>
      irq_Disable
        { st with
          VectorMap := st.VectorMap.set v
            { slot with type := VecType.vt_Interrupt, mode := VecMode.VEC_MODE_FROMBUS,
                        level := VecLevel.VEC_LEVEL_FROMBUS, irq := ctrlr.baseIRQ + pin,
                        enabled := false, ctrlr := some ci },
          IrqVector := Function.update st.IrqVector (ctrlr.baseIRQ + pin) (some v) }
        (ctrlr.baseIRQ + pin)

/-- The state `allocateVector` leaves when it binds the slot `v`, which held
`slot`, and `cc` is the controller the registry holds at index `ci`: the slot
rewritten, the reverse index updated, the line masked by `ioapic_disable`. -/
def allocated (st : KState) (ci : Nat) (irq v : Nat) (slot : VectorInfo) (cc : IrqController) :
    KState :=
  { st with
    VectorMap := st.VectorMap.set v (boundSlot slot irq ci),
    IrqVector := Function.update st.IrqVector irq (some v),
    mmio := ioapic_disable st.mmio cc (boundSlot slot irq ci) }

/-- The operation `allocateVector` for `k` consecutive lines from `pin` on, in
increasing order; every allocation scans the table afresh. -/
def allocateLines (ci : Nat) (ctrlr : IrqController) : Nat → Nat → KState → Option KState
  | 0, _, st => some st
  | k + 1, pin, st =>
    match allocateVector st ci ctrlr pin with
    | none => none
    | some st1 => allocateLines ci ctrlr k (pin + 1) st1

/-! ## Consistency of the vector table with the reverse index -/

/-- The IRQ `irq` has its vector: the reverse index entry of `irq` points to
a slot of kind `Interrupt` whose `irq` field is `irq`. -/
def irqHasVector (st : KState) (irq : Nat) : Prop :=
  ∃ (v : Nat) (slot : VectorInfo), st.IrqVector irq = some v ∧ st.VectorMap[v]? = some slot ∧
    slot.type = VecType.vt_Interrupt ∧ slot.irq = irq

/-- No two `Interrupt` slots of the vector table carry the same IRQ number. -/
def irqsDistinct (st : KState) : Prop :=
  ∀ (v1 v2 : Nat) (s1 s2 : VectorInfo), st.VectorMap[v1]? = some s1 →
    st.VectorMap[v2]? = some s2 → s1.type = VecType.vt_Interrupt →
    s2.type = VecType.vt_Interrupt → s1.irq = s2.irq → v1 = v2

/-- The IRQ `irq` is served by a line of one of the first `upto` controllers
of the registry `cs`, with the line counts the register state `m` reports. -/
def irqGiven (m : Nat → RegFile) (cs : List IrqController) (upto : Nat) (irq : Nat) : Prop :=
  ∃ (j : Nat) (c : IrqController) (p : Nat), j < upto ∧ cs[j]? = some c ∧
    p < lineCount m c ∧ irq = c.baseIRQ + p

/-- The IRQ ranges of the controllers of the registry `cs`, with the line
counts the register state `m` reports, are pairwise disjoint. -/
def rangesDisjoint (m : Nat → RegFile) (cs : List IrqController) : Prop :=
  ∀ (i j : Nat) (ci cj : IrqController) (p q : Nat), i < j → cs[i]? = some ci →
    cs[j]? = some cj → p < lineCount m ci → q < lineCount m cj →
    ci.baseIRQ + p ≠ cj.baseIRQ + q

/-- Invariant of initialisation with respect to the set `S` of IRQs given a
vector so far: every `Interrupt` slot serves an IRQ of `S` and is the slot the
reverse index holds for it, and every IRQ of `S` has its vector. -/
def tableInv (st : KState) (S : Nat → Prop) : Prop :=
  (∀ (v : Nat) (slot : VectorInfo), st.VectorMap[v]? = some slot →
    slot.type = VecType.vt_Interrupt → st.IrqVector slot.irq = some v ∧ S slot.irq) ∧
  (∀ irq : Nat, S irq → irqHasVector st irq)

/-- The registry of `st` holds the controllers of `cs` (same base IRQ and
register window at every index) and the version registers of `st` read as in
the register state `m`. -/
def sameRegistry (m : Nat → RegFile) (cs : List IrqController) (st : KState) : Prop :=
  st.ioapic.length = cs.length ∧
  (∀ (j : Nat) (c : IrqController), st.ioapic[j]? = some c →
    ∃ c0 : IrqController, cs[j]? = some c0 ∧ c.baseIRQ = c0.baseIRQ ∧ c.va = c0.va) ∧
  (∀ va : Nat, (st.mmio va).regs IOAPIC_VERSION % 2 ^ 32 =
    (m va).regs IOAPIC_VERSION % 2 ^ 32)

/-- The polarity and trigger-mode fields of the routing entry of line `q` in
the register window at `va`. -/
def polTrig (m : Nat → RegFile) (va q : Nat) : Nat × Nat :=
  (bitsGet ((m va).regs (IOAPIC_ENTRYLO q)) 13 1, bitsGet ((m va).regs (IOAPIC_ENTRYLO q)) 15 1)

/-- The number of `Interrupt` slots of a vector table. -/
def countInterrupt (vm : List VectorInfo) : Nat :=
  vm.countP (fun v => decide (v.type = VecType.vt_Interrupt))

/-! ## Sequences of invocations -/

/-- The wait invocation of process `invoker` on `irq`. -/
def waitParam (irq invoker : Nat) : InvParam :=
  { opCode := OpCode.OC_coyotos_IrqCtl_wait, iparam32 := irq, argsOK := true, invoker := invoker }

/-- The wait invocations of the processes `ps` on `irq`, run one after another
with nothing in between; yields their outcomes in order and the final state. -/
def runWaits (NUM_IRQ irq : Nat) : List Nat → KState → Option (List Outcome × KState)
  | [], st => some ([], st)
  | p :: ps, st =>
    match cap_IrqCtl NUM_IRQ st (waitParam irq p) with
    | none => none
    | some (o, st1) =>
      match runWaits NUM_IRQ irq ps st1 with
      | none => none
      | some (os, st2) => some (o :: os, st2)

/-- Modelled from the spec: delivery of an interrupt on `irq` by the trap entry
(not among the source files), which "sets a vector's pending bit and wakes blocked
waiters": the pending flag is latched and the head waiter leaves the stall
queue. -/
def irq_deliver (st : KState) (irq : Nat) : Option KState :=
  match irq_MapInterrupt st irq with
  | none => none
  | some (v, vector) =>
    some { st with VectorMap := st.VectorMap.set v
                     { vector with pending := true, stallQ := vector.stallQ.tail } }

/-- What happens on one IRQ: a wait invocation by a process, or the delivery
of an interrupt. -/
inductive IrqEvent where
  | wait (invoker : Nat)
  | deliver
  deriving DecidableEq, Repr

/-- The events `es` on `irq`, run one after another; yields the outcomes of
the wait invocations in order and the final state. -/
def runEvents (NUM_IRQ irq : Nat) : List IrqEvent → KState → Option (List Outcome × KState)
  | [], st => some ([], st)
  | IrqEvent.wait p :: es, st =>
    match cap_IrqCtl NUM_IRQ st (waitParam irq p) with
    | none => none
    | some (o, st1) =>
      match runEvents NUM_IRQ irq es st1 with
      | none => none
      | some (os, st2) => some (o :: os, st2)
  | IrqEvent.deliver :: es, st =>
    match irq_deliver st irq with
    | none => none
    | some st1 => runEvents NUM_IRQ irq es st1

/-- The same invocation repeated `n` times, each on the state the previous
one left; yields the final state. -/
def invokeRepeat (NUM_IRQ : Nat) (iParam : InvParam) : Nat → KState → Option KState
  | 0, st => some st
  | n + 1, st =>
    match cap_IrqCtl NUM_IRQ st iParam with
    | none => none
    | some (_, st1) => invokeRepeat NUM_IRQ iParam n st1

/-- The five IrqCtl operations that take an IRQ number. -/
def irqOps : List OpCode :=
  [OpCode.OC_coyotos_IrqCtl_getIrqWait, OpCode.OC_coyotos_IrqCtl_bindIrq,
   OpCode.OC_coyotos_IrqCtl_wait, OpCode.OC_coyotos_IrqCtl_enable,
   OpCode.OC_coyotos_IrqCtl_disable]

/-! ## Concrete states used to exercise the theorems -/

/-- A slot as static zero-initialisation leaves it. -/
def blankSlot : VectorInfo :=
  { type := VecType.vt_Unbound, mode := VecMode.VEC_MODE_FROMBUS,
    level := VecLevel.VEC_LEVEL_FROMBUS, irq := 0, enabled := false, pending := false,
    unmasked := false, fn := VecFn.vh_Default, stallQ := [], ctrlr := none }

/-- A register window whose version register reports a maximum redirection
entry of 7 (eight lines); every other register reads 0. -/
def bootRegs : RegFile := { index := 0, regs := fun r => if r = 1 then 0x00070011 else 0 }

/-- The controller of the end-to-end scenario: `baseIRQ = 0`. -/
def ctrlr8 : IrqController := { baseIRQ := 0, nIRQ := 0, va := 0xfec00000 }

/-- Boot state of the end-to-end scenario: ten unbound slots, one registered
controller with eight lines, CPU 0 with local-APIC id 2. -/
def boot8 : KState :=
  { VectorMap := List.replicate 10 blankSlot, IrqVector := fun _ => none,
    ioapic := [ctrlr8], nGlobalIRQ := 0,
    mmio := fun _ => bootRegs, calls := [], lapic_requires_8259_disable := false,
    i8259_is_shutdown := false, outbLog := [], cpu0_lapic_id := 2 }

/-- A bound vector serving IRQ 0 of controller 0, with the given pending flag. -/
def irq0Slot (pending : Bool) : VectorInfo :=
  { blankSlot with type := VecType.vt_Interrupt, pending := pending, ctrlr := some 0 }

/-- A state with one bound vector, slot 0 serving IRQ 0, whose pending flag
is `pending`. -/
def oneVector (pending : Bool) : KState :=
  { boot8 with
    VectorMap := [irq0Slot pending],
    IrqVector := fun irq => if irq = 0 then some 0 else none }

/-- A register window whose version register reports a maximum redirection
entry of 23 (twenty-four lines); every other register reads 0. -/
def bootRegs24 : RegFile := { index := 0, regs := fun r => if r = 1 then 0x00170011 else 0 }

/-- Boot state of a PC with one I/O APIC of twenty-four lines at `baseIRQ = 0`,
thirty unbound slots, and `nGlobalIRQ = 16` left by the legacy controller. -/
def boot24 : KState :=
  { boot8 with VectorMap := List.replicate 30 blankSlot, nGlobalIRQ := 16,
               mmio := fun _ => bootRegs24 }

/-- A register window in which every register reads 0: every routing entry
is unmasked, active high and edge triggered. -/
def zeroRegs : RegFile := { index := 0, regs := fun _ => 0 }

/-- A bound vector for IRQ 3 of `ctrlr8`, resolved as level triggered and
active low. -/
def levelLowSlot : VectorInfo :=
  { blankSlot with type := VecType.vt_Interrupt, mode := VecMode.VEC_MODE_LEVEL,
                   level := VecLevel.VEC_LEVEL_ACTLOW, irq := 3, ctrlr := some 0 }

/-- Two controllers registered with `ioapic_register` whose IRQ ranges
overlap: both have `baseIRQ = 0` and report one line, over a table of two
unbound slots. -/
def twoOverlapping : Option KState :=
  (ioapic_register
      { boot8 with VectorMap := [blankSlot, blankSlot], ioapic := [],
                   mmio := fun _ => zeroRegs } 0 0xfec00000).bind
    (fun s => ioapic_register s 0 0xfec01000)

/-- The state `ioapic_init` leaves when run on `boot8`. -/
def booted8 : KState := (ioapic_init boot8).getD boot8


/-! ## Properties of cap_IrqCtl -/

theorem irq_MapInterrupt_set (st : KState) (irq v : Nat) (vector x : VectorInfo)
    (h : irq_MapInterrupt st irq = some (v, vector)) :
    irq_MapInterrupt { st with VectorMap := st.VectorMap.set v x } irq = some (v, x) := by
  unfold irq_MapInterrupt at h ⊢
  cases hv : st.IrqVector irq with
  | none => simp [hv] at h
  | some w =>
    simp only [hv] at h ⊢
    cases hs : st.VectorMap[w]? with
    | none => simp [hs] at h
    | some s =>
      simp only [hs, Option.some.injEq, Prod.mk.injEq] at h
      obtain ⟨rfl, rfl⟩ := h
      have hlt : w < st.VectorMap.length := by
        by_contra hc
        have := List.getElem?_eq_none (Nat.le_of_not_lt hc)
        simp [this] at hs
      simp [hlt]

theorem wait_pending (NUM_IRQ : Nat) (st : KState) (irq p v : Nat) (vector : VectorInfo)
    (hirq : irq < NUM_IRQ) (hmap : irq_MapInterrupt st irq = some (v, vector))
    (hp : vector.pending = true) :
    cap_IrqCtl NUM_IRQ st (waitParam irq p) =
      some (Outcome.InvResult 0 [],
        { st with VectorMap := st.VectorMap.set v { vector with pending := false } }) := by
  simp [cap_IrqCtl, waitParam, Nat.not_le.mpr hirq, hmap, hp]

theorem wait_not_pending (NUM_IRQ : Nat) (st : KState) (irq p v : Nat) (vector : VectorInfo)
    (hirq : irq < NUM_IRQ) (hmap : irq_MapInterrupt st irq = some (v, vector))
    (hp : vector.pending = false) :
    cap_IrqCtl NUM_IRQ st (waitParam irq p) =
      some (Outcome.abandoned,
        { st with
          VectorMap := st.VectorMap.set v
            { vector with stallQ := vector.stallQ ++ [p], unmasked := true },
          calls := if vector.unmasked = false then st.calls ++ [CtrlCall.unmask irq]
                   else st.calls }) := by
  cases hu : vector.unmasked <;>
    simp [cap_IrqCtl, waitParam, Nat.not_le.mpr hirq, hmap, hp, hu]

/-- C1: for an IRQ number `irq >= NUM_IRQ`, each of getIrqWait, bindIrq, wait,
enable and disable (invoked with a well-formed argument count) ends with the
RequestError message and returns the global state it was given: no vector
field, no register, no stall queue and no controller call is added. -/
theorem C1_out_of_range_irq_is_request_error (NUM_IRQ : Nat) (st : KState) (iParam : InvParam)
    (hop : iParam.opCode ∈ irqOps) (hargs : iParam.argsOK = true)
    (hirq : iParam.iparam32 ≥ NUM_IRQ) :
    cap_IrqCtl NUM_IRQ st iParam =
      some (Outcome.InvErrorMessage ResultCode.RC_coyotos_Cap_RequestError, st) := by
  simp only [irqOps, List.mem_cons, List.mem_singleton, List.not_mem_nil, or_false] at hop
  rcases hop with h | h | h | h | h <;>
    simp [cap_IrqCtl, requestError, h, hargs, hirq]

/-- Witness of C1: a wait on IRQ 300 with `NUM_IRQ = 256`. -/
theorem C1_out_of_range_irq_is_request_error_witness :
    cap_IrqCtl 256 boot8 (waitParam 300 5) =
      some (Outcome.InvErrorMessage ResultCode.RC_coyotos_Cap_RequestError, boot8) :=
  C1_out_of_range_irq_is_request_error 256 boot8 (waitParam 300 5)
    (by decide) (by decide) (by decide)

/-- C8: for a valid IRQ number `irq < NUM_IRQ`, getIrqWait returns exactly one
capability, of type IrqWait with payload `irq`, and returns the global state it
was given; any number of repetitions therefore leaves the state, and with it
the vector table, as it was. -/
theorem C8_getIrqWait_pure (NUM_IRQ : Nat) (st : KState) (iParam : InvParam)
    (hop : iParam.opCode = OpCode.OC_coyotos_IrqCtl_getIrqWait) (hargs : iParam.argsOK = true)
    (hirq : iParam.iparam32 < NUM_IRQ) :
    cap_IrqCtl NUM_IRQ st iParam =
        some (Outcome.InvResult 1
          [{ type := CapType.ct_IrqWait, protPayload := iParam.iparam32 }], st) ∧
      ∀ n : Nat, invokeRepeat NUM_IRQ iParam n st = some st := by
  have h1 : cap_IrqCtl NUM_IRQ st iParam =
      some (Outcome.InvResult 1
        [{ type := CapType.ct_IrqWait, protPayload := iParam.iparam32 }], st) := by
    simp [cap_IrqCtl, hop, hargs, Nat.not_le.mpr hirq]
  refine ⟨h1, ?_⟩
  intro n
  induction n with
  | zero => rfl
  | succ k ih => simp [invokeRepeat, h1, ih]

/-- Witness of C8: getIrqWait on IRQ 3 with `NUM_IRQ = 256`. -/
theorem C8_getIrqWait_pure_witness :
    cap_IrqCtl 256 boot8 { waitParam 3 5 with opCode := OpCode.OC_coyotos_IrqCtl_getIrqWait } =
        some (Outcome.InvResult 1 [{ type := CapType.ct_IrqWait, protPayload := 3 }], boot8) ∧
      ∀ n : Nat, invokeRepeat 256
        { waitParam 3 5 with opCode := OpCode.OC_coyotos_IrqCtl_getIrqWait } n boot8 = some boot8 :=
  C8_getIrqWait_pure 256 boot8 { waitParam 3 5 with opCode := OpCode.OC_coyotos_IrqCtl_getIrqWait }
    rfl rfl (by decide)

theorem runWaits_not_pending (NUM_IRQ irq : Nat) (hirq : irq < NUM_IRQ) (ps : List Nat) :
    ∀ (st : KState) (v : Nat) (vector : VectorInfo),
      irq_MapInterrupt st irq = some (v, vector) → vector.pending = false →
      ∃ st' vector', runWaits NUM_IRQ irq ps st =
          some (List.replicate ps.length Outcome.abandoned, st') ∧
        irq_MapInterrupt st' irq = some (v, vector') ∧ vector'.pending = false ∧
        vector'.stallQ = vector.stallQ ++ ps := by
  induction ps with
  | nil =>
    intro st v vector hmap hp
    exact ⟨st, vector, rfl, hmap, hp, by simp⟩
  | cons p ps ih =>
    intro st v vector hmap hp
    have hstep := wait_not_pending NUM_IRQ st irq p v vector hirq hmap hp
    obtain ⟨st', vector', hrun, hmap', hp', hq'⟩ :=
      ih _ v { vector with stallQ := vector.stallQ ++ [p], unmasked := true }
        (irq_MapInterrupt_set { st with calls := if vector.unmasked = false
            then st.calls ++ [CtrlCall.unmask irq] else st.calls } irq v vector _ hmap) hp
    refine ⟨st', vector', ?_, hmap', hp', ?_⟩
    · simp only [runWaits, hstep]
      simp only [hrun, List.length_cons, List.replicate_succ]
    · simp [hq']

/-- C2: when a valid IRQ has its pending flag set and N >= 1 wait invocations
on it run one after another with no interrupt delivered in between, exactly
the first returns success, and it is the one that clears pending; each of the
others finds pending clear, joins the stall queue and abandons the
transaction without a result. -/
theorem C2_one_waiter_per_pending_interrupt (NUM_IRQ : Nat) (st : KState) (irq v : Nat)
    (vector : VectorInfo) (first : Nat) (rest : List Nat)
    (hirq : irq < NUM_IRQ) (hmap : irq_MapInterrupt st irq = some (v, vector))
    (hp : vector.pending = true) :
    ∃ st1 st' vector',
      cap_IrqCtl NUM_IRQ st (waitParam irq first) = some (Outcome.InvResult 0 [], st1) ∧
      irq_MapInterrupt st1 irq = some (v, { vector with pending := false }) ∧
      runWaits NUM_IRQ irq (first :: rest) st =
        some (Outcome.InvResult 0 [] :: List.replicate rest.length Outcome.abandoned, st') ∧
      irq_MapInterrupt st' irq = some (v, vector') ∧ vector'.pending = false ∧
      vector'.stallQ = vector.stallQ ++ rest := by
  have hstep := wait_pending NUM_IRQ st irq first v vector hirq hmap hp
  have hmap1 := irq_MapInterrupt_set st irq v vector { vector with pending := false } hmap
  obtain ⟨st', vector', hrun, hmap', hp', hq'⟩ :=
    runWaits_not_pending NUM_IRQ irq hirq rest _ v { vector with pending := false } hmap1 rfl
  refine ⟨_, st', vector', hstep, hmap1, ?_, hmap', hp', hq'⟩
  simp only [runWaits, hstep, hrun]

/-- Witness of C2: three waiters on IRQ 0 whose pending flag is set. -/
theorem C2_one_waiter_per_pending_interrupt_witness :
    ∃ st1 st' vector',
      cap_IrqCtl 256 (oneVector true) (waitParam 0 11) = some (Outcome.InvResult 0 [], st1) ∧
      irq_MapInterrupt st1 0 = some (0, { irq0Slot true with pending := false }) ∧
      runWaits 256 0 (11 :: [12, 13]) (oneVector true) =
        some (Outcome.InvResult 0 [] :: List.replicate [12, 13].length Outcome.abandoned, st') ∧
      irq_MapInterrupt st' 0 = some (0, vector') ∧ vector'.pending = false ∧
      vector'.stallQ = (irq0Slot true).stallQ ++ [12, 13] :=
  C2_one_waiter_per_pending_interrupt 256 (oneVector true) 0 0 (irq0Slot true)
    11 [12, 13] (by decide) (by rfl) (by rfl)

/-! ## Bit fields -/

theorem bitsGet_eq_mod_div (w q k : Nat) : bitsGet w q k = w % 2 ^ (q + k) / 2 ^ q := by
  unfold bitsGet
  rw [Nat.pow_add, Nat.mod_mul_right_div_self]

theorem bitsGet_mod (w N q k : Nat) (h : q + k ≤ N) : bitsGet (w % 2 ^ N) q k = bitsGet w q k := by
  rw [bitsGet_eq_mod_div, bitsGet_eq_mod_div, Nat.mod_mod_of_dvd _ (Nat.pow_dvd_pow 2 h)]

theorem bitsGet_bitsSet_same (w p n v : Nat) : bitsGet (bitsSet w p n v) p n = v % 2 ^ n := by
  unfold bitsGet bitsSet
  have ha : w % 2 ^ p < 2 ^ p := Nat.mod_lt _ (Nat.pos_pow_of_pos _ (by decide))
  have hb : v % 2 ^ n < 2 ^ n := Nat.mod_lt _ (Nat.pos_pow_of_pos _ (by decide))
  have : w % 2 ^ p + 2 ^ p * (v % 2 ^ n) + 2 ^ (p + n) * (w / 2 ^ (p + n)) =
      w % 2 ^ p + 2 ^ p * (v % 2 ^ n + 2 ^ n * (w / 2 ^ (p + n))) := by
    rw [Nat.pow_add]; ring
  rw [this, Nat.add_mul_div_left _ _ (Nat.pos_pow_of_pos _ (by decide)),
    Nat.div_eq_of_lt ha, Nat.zero_add, Nat.add_mul_mod_self_left, Nat.mod_mod]

theorem bitsGet_bitsSet_below (w p n v q k : Nat) (h : q + k ≤ p) :
    bitsGet (bitsSet w p n v) q k = bitsGet w q k := by
  rw [bitsGet_eq_mod_div, bitsGet_eq_mod_div]
  congr 1
  unfold bitsSet
  obtain ⟨d, rfl⟩ := Nat.exists_eq_add_of_le h
  have : w % 2 ^ (q + k + d) + 2 ^ (q + k + d) * (v % 2 ^ n) +
      2 ^ (q + k + d + n) * (w / 2 ^ (q + k + d + n)) =
      w % 2 ^ (q + k + d) + 2 ^ (q + k) * (2 ^ d * (v % 2 ^ n) +
        2 ^ (d + n) * (w / 2 ^ (q + k + d + n))) := by
    rw [Nat.pow_add (2) (q + k) d, show q + k + d + n = (q + k) + (d + n) by omega,
      Nat.pow_add (2) (q + k) (d + n)]
    ring
  rw [this, Nat.add_mul_mod_self_left,
    Nat.mod_mod_of_dvd _ (Nat.pow_dvd_pow 2 (Nat.le_add_right (q + k) d))]

theorem bitsGet_bitsSet_above (w p n v q k : Nat) (h : p + n ≤ q) :
    bitsGet (bitsSet w p n v) q k = bitsGet w q k := by
  unfold bitsGet bitsSet
  obtain ⟨d, rfl⟩ := Nat.exists_eq_add_of_le h
  have ha : w % 2 ^ p < 2 ^ p := Nat.mod_lt _ (Nat.pos_pow_of_pos _ (by decide))
  have hb : v % 2 ^ n < 2 ^ n := Nat.mod_lt _ (Nat.pos_pow_of_pos _ (by decide))
  have hlt : w % 2 ^ p + 2 ^ p * (v % 2 ^ n) < 2 ^ (p + n) := by
    rw [Nat.pow_add]
    calc w % 2 ^ p + 2 ^ p * (v % 2 ^ n) < 2 ^ p + 2 ^ p * (v % 2 ^ n) := by omega
      _ = 2 ^ p * (v % 2 ^ n + 1) := by ring
      _ ≤ 2 ^ p * 2 ^ n := Nat.mul_le_mul_left _ hb
  congr 1
  rw [Nat.pow_add 2 (p + n) d, ← Nat.div_div_eq_div_mul, ← Nat.div_div_eq_div_mul,
    Nat.add_mul_div_left _ _ (Nat.pos_pow_of_pos _ (by decide)), Nat.div_eq_of_lt hlt, Nat.zero_add]

theorem bitsGet_mod32 (w q k : Nat) (h : q + k ≤ 32) :
    bitsGet (w % 4294967296) q k = bitsGet w q k :=
  bitsGet_mod w 32 q k h

theorem routedEntry_lo_fields (vec lapic lo hi hi' : Nat) :
    (IoAPIC_Entry.masked { lo := (routedEntry { lo := lo % 2 ^ 32, hi := hi } vec lapic).lo % 2 ^ 32,
                           hi := hi' } = 1) ∧
    (IoAPIC_Entry.vector { lo := (routedEntry { lo := lo % 2 ^ 32, hi := hi } vec lapic).lo % 2 ^ 32,
                           hi := hi' } = vec % 256) ∧
    (IoAPIC_Entry.deliverMode
        { lo := (routedEntry { lo := lo % 2 ^ 32, hi := hi } vec lapic).lo % 2 ^ 32,
          hi := hi' } = 0) ∧
    (IoAPIC_Entry.destMode
        { lo := (routedEntry { lo := lo % 2 ^ 32, hi := hi } vec lapic).lo % 2 ^ 32,
          hi := hi' } = 0) ∧
    (IoAPIC_Entry.polarity
        { lo := (routedEntry { lo := lo % 2 ^ 32, hi := hi } vec lapic).lo % 2 ^ 32,
          hi := hi' } = IoAPIC_Entry.polarity { lo := lo, hi := hi }) ∧
    (IoAPIC_Entry.triggerMode
        { lo := (routedEntry { lo := lo % 2 ^ 32, hi := hi } vec lapic).lo % 2 ^ 32,
          hi := hi' } = IoAPIC_Entry.triggerMode { lo := lo, hi := hi }) := by
  simp [routedEntry, IoAPIC_Entry.set_vector, IoAPIC_Entry.set_deliverMode,
    IoAPIC_Entry.set_destMode, IoAPIC_Entry.set_masked, IoAPIC_Entry.set_dest,
    IoAPIC_Entry.masked, IoAPIC_Entry.vector, IoAPIC_Entry.deliverMode, IoAPIC_Entry.destMode,
    IoAPIC_Entry.polarity, IoAPIC_Entry.triggerMode, bitsGet_mod32, bitsGet_bitsSet_same,
    bitsGet_bitsSet_below, bitsGet_bitsSet_above]

theorem routedEntry_hi_fields (vec lapic lo hi lo' : Nat) :
    IoAPIC_Entry.dest
        { lo := lo',
          hi := (routedEntry { lo := lo, hi := hi % 2 ^ 32 } vec lapic).hi % 2 ^ 32 } =
        lapic % 256 := by
  simp [routedEntry, IoAPIC_Entry.set_vector, IoAPIC_Entry.set_deliverMode,
    IoAPIC_Entry.set_destMode, IoAPIC_Entry.set_masked, IoAPIC_Entry.set_dest,
    IoAPIC_Entry.dest, bitsGet_mod32, bitsGet_bitsSet_same]

theorem set_masked_fields (lo hi v : Nat) (hv : v < 2) :
    IoAPIC_Entry.masked
        { lo := (IoAPIC_Entry.set_masked { lo := lo % 2 ^ 32, hi := hi % 2 ^ 32 } v).lo % 2 ^ 32,
          hi := (IoAPIC_Entry.set_masked { lo := lo % 2 ^ 32, hi := hi % 2 ^ 32 } v).hi % 2 ^ 32 }
        = v ∧
      sameButMasked { lo := lo, hi := hi }
        { lo := (IoAPIC_Entry.set_masked { lo := lo % 2 ^ 32, hi := hi % 2 ^ 32 } v).lo % 2 ^ 32,
          hi := (IoAPIC_Entry.set_masked { lo := lo % 2 ^ 32, hi := hi % 2 ^ 32 } v).hi % 2 ^ 32 } := by
  simp only [sameButMasked, IoAPIC_Entry.set_masked, IoAPIC_Entry.masked, IoAPIC_Entry.vector,
    IoAPIC_Entry.deliverMode, IoAPIC_Entry.destMode, IoAPIC_Entry.deliveryStatus,
    IoAPIC_Entry.polarity, IoAPIC_Entry.remoteIRR, IoAPIC_Entry.triggerMode, IoAPIC_Entry.dest,
    bitsGet, bitsSet]
  norm_num
  repeat' apply And.intro
  all_goals omega

/-! ## Register access -/

theorem entry_lo_ne_hi (p q : Nat) : IOAPIC_ENTRYLO p ≠ IOAPIC_ENTRYHI q := by
  unfold IOAPIC_ENTRYLO IOAPIC_ENTRYHI; omega

theorem entry_lo_inj {p q : Nat} (h : IOAPIC_ENTRYLO p = IOAPIC_ENTRYLO q) : p = q := by
  unfold IOAPIC_ENTRYLO at h; omega

theorem entry_hi_inj {p q : Nat} (h : IOAPIC_ENTRYHI p = IOAPIC_ENTRYHI q) : p = q := by
  unfold IOAPIC_ENTRYHI at h; omega

/-- The select values of a low and of a high word differ, reduced or not:
the first is even, the second odd. -/
theorem sel_lo_ne_hi (p q : Nat) : IOAPIC_ENTRYLO p % 2 ^ 32 ≠ IOAPIC_ENTRYHI q % 2 ^ 32 := by
  unfold IOAPIC_ENTRYLO IOAPIC_ENTRYHI; omega

theorem entry_lo_ne_sel_hi (q p : Nat) : IOAPIC_ENTRYLO q ≠ IOAPIC_ENTRYHI p % 2 ^ 32 := by
  unfold IOAPIC_ENTRYLO IOAPIC_ENTRYHI; omega

theorem entry_hi_ne_sel_lo (q p : Nat) : IOAPIC_ENTRYHI q ≠ IOAPIC_ENTRYLO p % 2 ^ 32 := by
  unfold IOAPIC_ENTRYLO IOAPIC_ENTRYHI; omega

theorem sel_lo_fit (pin : Nat) (h : IOAPIC_ENTRYHI pin < 2 ^ 32) :
    IOAPIC_ENTRYLO pin % 2 ^ 32 = IOAPIC_ENTRYLO pin := by
  unfold IOAPIC_ENTRYLO IOAPIC_ENTRYHI at *; omega

theorem sel_hi_fit (pin : Nat) (h : IOAPIC_ENTRYHI pin < 2 ^ 32) :
    IOAPIC_ENTRYHI pin % 2 ^ 32 = IOAPIC_ENTRYHI pin := by
  unfold IOAPIC_ENTRYHI at *; omega

/-- The 32-bit difference is the natural one when `irq` is not below
`baseIRQ` and the difference fits 32 bits. -/
theorem pinOf_eq (irq baseIRQ : Nat) (hle : baseIRQ ≤ irq) (hlt : irq - baseIRQ < 2 ^ 32) :
    pinOf irq baseIRQ = irq - baseIRQ := by
  unfold pinOf; omega

theorem pinOf_add (baseIRQ p : Nat) (hp : p < 2 ^ 32) : pinOf (baseIRQ + p) baseIRQ = p := by
  unfold pinOf; omega

theorem pinOf_of_fit (irq baseIRQ : Nat) (hle : baseIRQ ≤ irq)
    (hfit : IOAPIC_ENTRYHI (irq - baseIRQ) < 2 ^ 32) : pinOf irq baseIRQ = irq - baseIRQ := by
  apply pinOf_eq irq baseIRQ hle
  unfold IOAPIC_ENTRYHI at hfit; omega

theorem write_after_read (m : Nat → RegFile) (c : IrqController) (pin : Nat)
    (f : IoAPIC_Entry → IoAPIC_Entry) :
    ioapic_write_entry (ioapic_read_entry m c pin).2 c pin (f (ioapic_read_entry m c pin).1) =
      rmwEntry m c pin f := by
  simp [ioapic_read_entry, ioapic_read_reg, ioapic_write_entry, ioapic_write_reg, rmwEntry]

theorem ioapic_enable_eq (m : Nat → RegFile) (c : IrqController) (vi : VectorInfo) :
    ioapic_enable m c vi = rmwEntry m c (pinOf vi.irq c.baseIRQ) (fun e => e.set_masked 0) := by
  simp only [ioapic_enable]
  exact write_after_read m c _ (fun e => e.set_masked 0)

theorem ioapic_disable_eq (m : Nat → RegFile) (c : IrqController) (vi : VectorInfo) :
    ioapic_disable m c vi = rmwEntry m c (pinOf vi.irq c.baseIRQ) (fun e => e.set_masked 1) := by
  simp only [ioapic_disable]
  exact write_after_read m c _ (fun e => e.set_masked 1)

theorem rmwEntry_other_window (m : Nat → RegFile) (c : IrqController) (pin : Nat)
    (f : IoAPIC_Entry → IoAPIC_Entry) (va : Nat) (h : va ≠ c.va) :
    rmwEntry m c pin f va = m va := by
  simp [rmwEntry, Function.update_noteq h]

theorem rmwEntry_regs_other (m : Nat → RegFile) (c : IrqController) (pin : Nat)
    (f : IoAPIC_Entry → IoAPIC_Entry) (r : Nat)
    (hlo : r ≠ IOAPIC_ENTRYLO pin % 2 ^ 32) (hhi : r ≠ IOAPIC_ENTRYHI pin % 2 ^ 32) :
    (rmwEntry m c pin f c.va).regs r = (m c.va).regs r := by
  simp only [rmwEntry, Function.update_same, Function.update_noteq hlo,
    Function.update_noteq hhi]

theorem rmwEntry_entry_other (m : Nat → RegFile) (c : IrqController) (pin q : Nat)
    (f : IoAPIC_Entry → IoAPIC_Entry) (hfit : IOAPIC_ENTRYHI pin < 2 ^ 32) (h : q ≠ pin) :
    entryOf (rmwEntry m c pin f) c q = entryOf m c q := by
  have h1 : IOAPIC_ENTRYLO q ≠ IOAPIC_ENTRYLO pin % 2 ^ 32 := by
    rw [sel_lo_fit pin hfit]; exact fun e => h (entry_lo_inj e)
  have h2 : IOAPIC_ENTRYHI q ≠ IOAPIC_ENTRYHI pin % 2 ^ 32 := by
    rw [sel_hi_fit pin hfit]; exact fun e => h (entry_hi_inj e)
  simp only [entryOf, rmwEntry_regs_other m c pin f _ h1 (entry_lo_ne_sel_hi q pin),
    rmwEntry_regs_other m c pin f _ (entry_hi_ne_sel_lo q pin) h2]

theorem rmwEntry_entry_same (m : Nat → RegFile) (c : IrqController) (pin : Nat)
    (f : IoAPIC_Entry → IoAPIC_Entry) (hfit : IOAPIC_ENTRYHI pin < 2 ^ 32) :
    entryOf (rmwEntry m c pin f) c pin =
      { lo := (f { lo := (m c.va).regs (IOAPIC_ENTRYLO pin) % 2 ^ 32,
                   hi := (m c.va).regs (IOAPIC_ENTRYHI pin) % 2 ^ 32 }).lo % 2 ^ 32,
        hi := (f { lo := (m c.va).regs (IOAPIC_ENTRYLO pin) % 2 ^ 32,
                   hi := (m c.va).regs (IOAPIC_ENTRYHI pin) % 2 ^ 32 }).hi % 2 ^ 32 } := by
  simp only [entryOf, rmwEntry, sel_lo_fit pin hfit, sel_hi_fit pin hfit, Function.update_same,
    Function.update_noteq (entry_lo_ne_hi pin pin)]

theorem rmw_set_masked_idem (m : Nat → RegFile) (c : IrqController) (pin v : Nat) :
    rmwEntry (rmwEntry m c pin (fun e => e.set_masked v)) c pin (fun e => e.set_masked v) =
      rmwEntry m c pin (fun e => e.set_masked v) := by
  funext va
  by_cases hva : va = c.va
  · subst hva
    have hne := sel_lo_ne_hi pin pin
    unfold rmwEntry
    generalize IOAPIC_ENTRYLO pin % 2 ^ 32 = a at hne ⊢
    generalize IOAPIC_ENTRYHI pin % 2 ^ 32 = b at hne ⊢
    simp only [Function.update_same, Function.update_noteq hne, Function.update_idem,
      IoAPIC_Entry.set_masked, bitsSet]
    congr 1
    funext r
    by_cases hr : r = b
    · subst hr; simp
    · by_cases hr2 : r = a
      · subst hr2
        simp only [Function.update_noteq hr, Function.update_same]
        generalize (m c.va).regs r = w
        norm_num
        omega
      · simp [Function.update, hr, hr2]
  · simp [rmwEntry_other_window _ _ _ _ _ hva]

theorem rmw_set_masked_spec (m : Nat → RegFile) (c : IrqController) (pin v : Nat) (hv : v < 2)
    (hfit : IOAPIC_ENTRYHI pin < 2 ^ 32) :
    (entryOf (rmwEntry m c pin (fun e => e.set_masked v)) c pin).masked = v ∧
      sameButMasked (entryOf m c pin)
        (entryOf (rmwEntry m c pin (fun e => e.set_masked v)) c pin) := by
  rw [rmwEntry_entry_same _ _ _ _ hfit]
  exact set_masked_fields _ _ v hv

/-- C7: for a vector whose irq is not below the base of its controller and
whose line (pin = irq - baseIRQ) has routing-entry registers within the 32-bit
register-select range, `ioapic_enable` leaves the entry of the line with
masked = 0 and `ioapic_disable` leaves it with masked = 1; either changes no
other field of that entry, no entry of another line, no other register window,
and applied twice yields the register state it yields applied once. -/
theorem C7_enable_disable_touch_only_mask_bit (m : Nat → RegFile) (c : IrqController)
    (vi : VectorInfo) (hle : c.baseIRQ ≤ vi.irq)
    (hfit : IOAPIC_ENTRYHI (vi.irq - c.baseIRQ) < 2 ^ 32) :
    (entryOf (ioapic_enable m c vi) c (vi.irq - c.baseIRQ)).masked = 0 ∧
    (entryOf (ioapic_disable m c vi) c (vi.irq - c.baseIRQ)).masked = 1 ∧
    ∀ op : (Nat → RegFile) → IrqController → VectorInfo → (Nat → RegFile),
      op = ioapic_enable ∨ op = ioapic_disable →
        sameButMasked (entryOf m c (vi.irq - c.baseIRQ))
          (entryOf (op m c vi) c (vi.irq - c.baseIRQ)) ∧
        (∀ q : Nat, q ≠ vi.irq - c.baseIRQ → entryOf (op m c vi) c q = entryOf m c q) ∧
        (∀ va : Nat, va ≠ c.va → op m c vi va = m va) ∧
        op (op m c vi) c vi = op m c vi := by
  have hpin := pinOf_of_fit vi.irq c.baseIRQ hle hfit
  have hen := ioapic_enable_eq m c vi
  have hdis := ioapic_disable_eq m c vi
  rw [hpin] at hen hdis
  refine ⟨?_, ?_, ?_⟩
  · rw [hen]; exact (rmw_set_masked_spec m c _ 0 (by decide) hfit).1
  · rw [hdis]; exact (rmw_set_masked_spec m c _ 1 (by decide) hfit).1
  · intro op hop
    rcases hop with rfl | rfl
    · refine ⟨?_, ?_, ?_, ?_⟩
      · rw [hen]; exact (rmw_set_masked_spec m c _ 0 (by decide) hfit).2
      · intro q hq; rw [hen]; exact rmwEntry_entry_other m c _ q _ hfit hq
      · intro va hva; rw [hen]; exact rmwEntry_other_window m c _ _ va hva
      · rw [ioapic_enable_eq, ioapic_enable_eq]; exact rmw_set_masked_idem m c _ 0
    · refine ⟨?_, ?_, ?_, ?_⟩
      · rw [hdis]; exact (rmw_set_masked_spec m c _ 1 (by decide) hfit).2
      · intro q hq; rw [hdis]; exact rmwEntry_entry_other m c _ q _ hfit hq
      · intro va hva; rw [hdis]; exact rmwEntry_other_window m c _ _ va hva
      · rw [ioapic_disable_eq, ioapic_disable_eq]; exact rmw_set_masked_idem m c _ 1

/-- Witness of C7: the vector of IRQ 3 at the controller with `baseIRQ = 0`,
on a register window that reads 0 everywhere. -/
theorem C7_enable_disable_touch_only_mask_bit_witness :
    (entryOf (ioapic_enable (fun _ => zeroRegs) ctrlr8 levelLowSlot) ctrlr8
        (levelLowSlot.irq - ctrlr8.baseIRQ)).masked = 0 ∧
    (entryOf (ioapic_disable (fun _ => zeroRegs) ctrlr8 levelLowSlot) ctrlr8
        (levelLowSlot.irq - ctrlr8.baseIRQ)).masked = 1 :=
  ⟨(C7_enable_disable_touch_only_mask_bit (fun _ => zeroRegs) ctrlr8 levelLowSlot
      (by decide) (by decide)).1,
   (C7_enable_disable_touch_only_mask_bit (fun _ => zeroRegs) ctrlr8 levelLowSlot
      (by decide) (by decide)).2.1⟩

/-! ## ioapic_setup and the routing of one vector -/

theorem read_entry_fst (m : Nat → RegFile) (c : IrqController) (pin : Nat)
    (hfit : IOAPIC_ENTRYHI pin < 2 ^ 32) :
    (ioapic_read_entry m c pin).1 =
      { lo := (m c.va).regs (IOAPIC_ENTRYLO pin) % 2 ^ 32,
        hi := (m c.va).regs (IOAPIC_ENTRYHI pin) % 2 ^ 32 } := by
  simp only [ioapic_read_entry, ioapic_read_reg, Function.update_same, Function.update_idem,
    sel_lo_fit pin hfit, sel_hi_fit pin hfit]

theorem entryOf_afterLoWrite (m : Nat → RegFile) (c : IrqController) (pin : Nat)
    (ent : IoAPIC_Entry) (hfit : IOAPIC_ENTRYHI pin < 2 ^ 32) :
    entryOf (afterLoWrite (ioapic_read_entry m c pin).2 c pin ent) c pin =
      { lo := ent.lo % 2 ^ 32, hi := (m c.va).regs (IOAPIC_ENTRYHI pin) } := by
  have hne := (entry_lo_ne_hi pin pin).symm
  simp only [entryOf, afterLoWrite, ioapic_write_reg, ioapic_read_entry, ioapic_read_reg,
    Function.update_same, Function.update_idem, sel_lo_fit pin hfit, Function.update_noteq hne]

theorem setupEntry_hi (vi : VectorInfo) (e : IoAPIC_Entry) : (setupEntry vi e).hi = e.hi := by
  unfold setupEntry
  split <;> split <;> rfl

/-- The low word `ioapic_setup` writes differs from the one it read in the
polarity and trigger-mode bits only. -/
theorem setupEntry_lo_fields (vi : VectorInfo) (lo hi hi1 hi2 : Nat) :
    (IoAPIC_Entry.vector { lo := (setupEntry vi { lo := lo % 2 ^ 32, hi := hi }).lo % 2 ^ 32,
                           hi := hi1 } = IoAPIC_Entry.vector { lo := lo, hi := hi2 }) ∧
    (IoAPIC_Entry.deliverMode
        { lo := (setupEntry vi { lo := lo % 2 ^ 32, hi := hi }).lo % 2 ^ 32, hi := hi1 } =
      IoAPIC_Entry.deliverMode { lo := lo, hi := hi2 }) ∧
    (IoAPIC_Entry.destMode
        { lo := (setupEntry vi { lo := lo % 2 ^ 32, hi := hi }).lo % 2 ^ 32, hi := hi1 } =
      IoAPIC_Entry.destMode { lo := lo, hi := hi2 }) ∧
    (IoAPIC_Entry.deliveryStatus
        { lo := (setupEntry vi { lo := lo % 2 ^ 32, hi := hi }).lo % 2 ^ 32, hi := hi1 } =
      IoAPIC_Entry.deliveryStatus { lo := lo, hi := hi2 }) ∧
    (IoAPIC_Entry.remoteIRR
        { lo := (setupEntry vi { lo := lo % 2 ^ 32, hi := hi }).lo % 2 ^ 32, hi := hi1 } =
      IoAPIC_Entry.remoteIRR { lo := lo, hi := hi2 }) ∧
    (IoAPIC_Entry.masked
        { lo := (setupEntry vi { lo := lo % 2 ^ 32, hi := hi }).lo % 2 ^ 32, hi := hi1 } =
      IoAPIC_Entry.masked { lo := lo, hi := hi2 }) ∧
    (bitsGet ((setupEntry vi { lo := lo % 2 ^ 32, hi := hi }).lo % 2 ^ 32) 17 15 =
      bitsGet lo 17 15) ∧
    (IoAPIC_Entry.polarity
        { lo := (setupEntry vi { lo := lo % 2 ^ 32, hi := hi }).lo % 2 ^ 32, hi := hi1 } =
      if vi.level = VecLevel.VEC_LEVEL_ACTHIGH then 0 else 1) ∧
    (IoAPIC_Entry.triggerMode
        { lo := (setupEntry vi { lo := lo % 2 ^ 32, hi := hi }).lo % 2 ^ 32, hi := hi1 } =
      if vi.mode = VecMode.VEC_MODE_EDGE then 0 else 1) := by
  by_cases h1 : vi.level = VecLevel.VEC_LEVEL_ACTHIGH <;>
  by_cases h2 : vi.mode = VecMode.VEC_MODE_EDGE <;>
  simp [setupEntry, h1, h2, IoAPIC_Entry.set_polarity, IoAPIC_Entry.set_triggerMode,
    IoAPIC_Entry.masked, IoAPIC_Entry.vector, IoAPIC_Entry.deliverMode, IoAPIC_Entry.destMode,
    IoAPIC_Entry.deliveryStatus, IoAPIC_Entry.remoteIRR, IoAPIC_Entry.polarity,
    IoAPIC_Entry.triggerMode, bitsGet_mod32, bitsGet_bitsSet_same, bitsGet_bitsSet_below,
    bitsGet_bitsSet_above]

theorem hi_fields_mod (hi : Nat) :
    IoAPIC_Entry.dest { lo := 0, hi := hi % 2 ^ 32 % 2 ^ 32 } =
        IoAPIC_Entry.dest { lo := 0, hi := hi } ∧
      bitsGet (hi % 2 ^ 32 % 2 ^ 32) 0 24 = bitsGet hi 0 24 := by
  simp [IoAPIC_Entry.dest, bitsGet_mod32]

theorem ioapic_setup_eq (m : Nat → RegFile) (c : IrqController) (vi : VectorInfo)
    (hm : vi.mode ≠ VecMode.VEC_MODE_FROMBUS) (hl : vi.level ≠ VecLevel.VEC_LEVEL_FROMBUS) :
    ioapic_setup m c vi = some (rmwEntry m c (pinOf vi.irq c.baseIRQ) (setupEntry vi)) := by
  simp only [ioapic_setup, hm, hl, if_false]
  rw [write_after_read m c _ (setupEntry vi)]

theorem setupAfterHi_eq (m : Nat → RegFile) (c : IrqController) (vi : VectorInfo) :
    setupAfterHi m c vi = rmwEntry m c (pinOf vi.irq c.baseIRQ) (setupEntry vi) := by
  rw [← write_after_read m c _ (setupEntry vi)]
  rfl

theorem routeAfterHi_eq (st : KState) (c : IrqController) (slot : VectorInfo) (vec : Nat) :
    routeAfterHi st c slot vec =
      rmwEntry st.mmio c (pinOf slot.irq c.baseIRQ)
        (fun e => routedEntry e vec st.cpu0_lapic_id) := by
  rw [← write_after_read st.mmio c _ (fun e => routedEntry e vec st.cpu0_lapic_id)]
  rfl

theorem routeVector_interrupt (st : KState) (vec : Nat) (slot : VectorInfo) (c : IrqController)
    (hs : st.VectorMap[vec]? = some slot) (ht : slot.type = VecType.vt_Interrupt)
    (hc : ctrlrOf st slot = some c) :
    routeVector st vec =
      if slot.enabled = false then
        some { st with mmio := rmwEntry st.mmio c (pinOf slot.irq c.baseIRQ)
                                 (fun e => routedEntry e vec st.cpu0_lapic_id) }
      else none := by
  simp only [routeVector, hs, ht, hc]
  cases he : slot.enabled
  · simp only [ne_eq, not_true_eq_false, if_false, if_true]
    rw [write_after_read st.mmio c _ (fun e => routedEntry e vec st.cpu0_lapic_id)]
  · simp

/-- C4 (amended): for a vector whose irq is not below the base of its
controller and whose line (pin = irq - baseIRQ) has routing-entry registers
within the 32-bit register-select range: `ioapic_setup` performs its two
register writes whatever the masked bit of the entry is; it changes only the
polarity and trigger-mode fields (every other field of the entry, the masked
bit among them, is after the low-word write and after the call what it was
before, and so is every other entry and every other register window), so the
entry is masked at both writes exactly when it was masked before the call.
The routing loop of `ioapic_init` sets masked = 1 in the same low-word write
that installs the target vector (the 8-bit field holds `vec % 256`), keeps
polarity and trigger mode, and the entry stays masked through the high-word
write. -/
theorem C4_setup_keeps_mask_routing_sets_mask :
    (∀ (m : Nat → RegFile) (c : IrqController) (vi : VectorInfo) (m' : Nat → RegFile),
      c.baseIRQ ≤ vi.irq → IOAPIC_ENTRYHI (vi.irq - c.baseIRQ) < 2 ^ 32 →
      ioapic_setup m c vi = some m' →
        m' = setupAfterHi m c vi ∧
        sameButPolTrig (entryOf m c (vi.irq - c.baseIRQ))
          (entryOf (setupAfterLo m c vi) c (vi.irq - c.baseIRQ)) ∧
        sameButPolTrig (entryOf m c (vi.irq - c.baseIRQ))
          (entryOf m' c (vi.irq - c.baseIRQ)) ∧
        (entryOf m' c (vi.irq - c.baseIRQ)).polarity =
          (if vi.level = VecLevel.VEC_LEVEL_ACTHIGH then 0 else 1) ∧
        (entryOf m' c (vi.irq - c.baseIRQ)).triggerMode =
          (if vi.mode = VecMode.VEC_MODE_EDGE then 0 else 1) ∧
        (∀ q : Nat, q ≠ vi.irq - c.baseIRQ → entryOf m' c q = entryOf m c q) ∧
        (∀ va : Nat, va ≠ c.va → m' va = m va)) ∧
    (∀ (st st' : KState) (vec : Nat) (slot : VectorInfo) (c : IrqController),
      st.VectorMap[vec]? = some slot → slot.type = VecType.vt_Interrupt →
      ctrlrOf st slot = some c → c.baseIRQ ≤ slot.irq →
      IOAPIC_ENTRYHI (slot.irq - c.baseIRQ) < 2 ^ 32 → routeVector st vec = some st' →
        st'.mmio = routeAfterHi st c slot vec ∧
        (entryOf (routeAfterLo st c slot vec) c (slot.irq - c.baseIRQ)).masked = 1 ∧
        (entryOf (routeAfterLo st c slot vec) c (slot.irq - c.baseIRQ)).vector = vec % 256 ∧
        samePolTrigMask (entryOf st'.mmio c (slot.irq - c.baseIRQ))
          (entryOf (routeAfterLo st c slot vec) c (slot.irq - c.baseIRQ)) ∧
        (entryOf st'.mmio c (slot.irq - c.baseIRQ)).masked = 1 ∧
        (entryOf st'.mmio c (slot.irq - c.baseIRQ)).vector = vec % 256 ∧
        (entryOf st'.mmio c (slot.irq - c.baseIRQ)).polarity =
          (entryOf st.mmio c (slot.irq - c.baseIRQ)).polarity ∧
        (entryOf st'.mmio c (slot.irq - c.baseIRQ)).triggerMode =
          (entryOf st.mmio c (slot.irq - c.baseIRQ)).triggerMode) := by
  constructor
  · intro m c vi m' hle hfit h
    have hpin := pinOf_of_fit vi.irq c.baseIRQ hle hfit
    have hm : vi.mode ≠ VecMode.VEC_MODE_FROMBUS := by
      intro hc; simp [ioapic_setup, hc] at h
    have hl : vi.level ≠ VecLevel.VEC_LEVEL_FROMBUS := by
      intro hc; simp [ioapic_setup, hc] at h
    rw [ioapic_setup_eq m c vi hm hl] at h
    have hm' : m' = rmwEntry m c (vi.irq - c.baseIRQ) (setupEntry vi) := by
      injection h with h; rw [← h, hpin]
    have hf := setupEntry_lo_fields vi ((m c.va).regs (IOAPIC_ENTRYLO (vi.irq - c.baseIRQ)))
      ((m c.va).regs (IOAPIC_ENTRYHI (vi.irq - c.baseIRQ)) % 2 ^ 32)
    have hh := hi_fields_mod ((m c.va).regs (IOAPIC_ENTRYHI (vi.irq - c.baseIRQ)))
    have hlo : entryOf (setupAfterLo m c vi) c (vi.irq - c.baseIRQ) =
        { lo := (setupEntry vi
                  { lo := (m c.va).regs (IOAPIC_ENTRYLO (vi.irq - c.baseIRQ)) % 2 ^ 32,
                    hi := (m c.va).regs (IOAPIC_ENTRYHI (vi.irq - c.baseIRQ)) % 2 ^ 32 }).lo
                % 2 ^ 32,
          hi := (m c.va).regs (IOAPIC_ENTRYHI (vi.irq - c.baseIRQ)) } := by
      rw [setupAfterLo, hpin, entryOf_afterLoWrite _ _ _ _ hfit, read_entry_fst _ _ _ hfit]
    have hfin := rmwEntry_entry_same m c (vi.irq - c.baseIRQ) (setupEntry vi) hfit
    rw [← hm'] at hfin
    rw [setupEntry_hi] at hfin
    refine ⟨by rw [setupAfterHi_eq, hpin]; exact hm', ?_, ?_, ?_, ?_, ?_, ?_⟩
    · rw [hlo]
      obtain ⟨f1, f2, f3, f4, f5, f6, f7, _, _⟩ := hf ((m c.va).regs
        (IOAPIC_ENTRYHI (vi.irq - c.baseIRQ))) ((m c.va).regs (IOAPIC_ENTRYHI (vi.irq - c.baseIRQ)))
      exact ⟨f1, f2, f3, f4, f5, f6, rfl, f7, rfl⟩
    · rw [hfin]
      obtain ⟨f1, f2, f3, f4, f5, f6, f7, _, _⟩ := hf
        ((m c.va).regs (IOAPIC_ENTRYHI (vi.irq - c.baseIRQ)) % 2 ^ 32 % 2 ^ 32)
        ((m c.va).regs (IOAPIC_ENTRYHI (vi.irq - c.baseIRQ)))
      exact ⟨f1, f2, f3, f4, f5, f6, hh.1, f7, hh.2⟩
    · rw [hfin]; exact (hf _ 0).2.2.2.2.2.2.2.1
    · rw [hfin]; exact (hf _ 0).2.2.2.2.2.2.2.2
    · intro q hq; rw [hm']; exact rmwEntry_entry_other m c _ q _ hfit hq
    · intro va hva; rw [hm']; exact rmwEntry_other_window m c _ _ va hva
  · intro st st' vec slot c hs ht hc hle hfit hr
    have hpin := pinOf_of_fit slot.irq c.baseIRQ hle hfit
    rw [routeVector_interrupt st vec slot c hs ht hc] at hr
    have hen : slot.enabled = false := by
      by_contra hne; simp [hne] at hr
    simp only [hen, if_true, Option.some.injEq] at hr
    have hm' : st'.mmio = rmwEntry st.mmio c (slot.irq - c.baseIRQ)
        (fun e => routedEntry e vec st.cpu0_lapic_id) := by
      rw [← hr, hpin]
    have hf := routedEntry_lo_fields vec st.cpu0_lapic_id
      ((st.mmio c.va).regs (IOAPIC_ENTRYLO (slot.irq - c.baseIRQ)))
      ((st.mmio c.va).regs (IOAPIC_ENTRYHI (slot.irq - c.baseIRQ)) % 2 ^ 32)
    have hlo : entryOf (routeAfterLo st c slot vec) c (slot.irq - c.baseIRQ) =
        { lo := (routedEntry
                  { lo := (st.mmio c.va).regs (IOAPIC_ENTRYLO (slot.irq - c.baseIRQ)) % 2 ^ 32,
                    hi := (st.mmio c.va).regs (IOAPIC_ENTRYHI (slot.irq - c.baseIRQ)) % 2 ^ 32 }
                  vec st.cpu0_lapic_id).lo % 2 ^ 32,
          hi := (st.mmio c.va).regs (IOAPIC_ENTRYHI (slot.irq - c.baseIRQ)) } := by
      rw [routeAfterLo, hpin, entryOf_afterLoWrite _ _ _ _ hfit, read_entry_fst _ _ _ hfit]
    have hhi := rmwEntry_entry_same st.mmio c (slot.irq - c.baseIRQ)
      (fun e => routedEntry e vec st.cpu0_lapic_id) hfit
    rw [← hm'] at hhi
    refine ⟨by rw [routeAfterHi_eq, hpin]; exact hm', ?_, ?_, ?_, ?_, ?_, ?_, ?_⟩
    · rw [hlo]; exact (hf _).1
    · rw [hlo]; exact (hf _).2.1
    · rw [hlo, hhi]
      refine ⟨?_, ?_, ?_⟩
      · rw [(hf _).2.2.2.2.1]; exact ((hf _).2.2.2.2.1).symm
      · rw [(hf _).2.2.2.2.2]; exact ((hf _).2.2.2.2.2).symm
      · rw [(hf _).1]; exact ((hf _).1).symm
    · rw [hhi]; exact (hf _).1
    · rw [hhi]; exact (hf _).2.1
    · rw [hhi]; exact (hf _).2.2.2.2.1
    · rw [hhi]; exact (hf _).2.2.2.2.2

/-- Witness of C4 (amended): `ioapic_setup` on the unmasked entry of line 3 and
the routing of vector 0 in a state with one bound vector. -/
theorem C4_setup_keeps_mask_routing_sets_mask_witness :
    sameButPolTrig (entryOf (fun _ => zeroRegs) ctrlr8 (levelLowSlot.irq - ctrlr8.baseIRQ))
      (entryOf (setupAfterHi (fun _ => zeroRegs) ctrlr8 levelLowSlot) ctrlr8
        (levelLowSlot.irq - ctrlr8.baseIRQ)) ∧
    (entryOf (routeAfterLo (oneVector false) ctrlr8 (irq0Slot false) 0) ctrlr8
        ((irq0Slot false).irq - ctrlr8.baseIRQ)).masked = 1 :=
  ⟨(C4_setup_keeps_mask_routing_sets_mask.1 (fun _ => zeroRegs) ctrlr8 levelLowSlot
      (setupAfterHi (fun _ => zeroRegs) ctrlr8 levelLowSlot) (by decide) (by decide) rfl).2.2.1,
   (C4_setup_keeps_mask_routing_sets_mask.2 (oneVector false)
      { oneVector false with mmio := routeAfterHi (oneVector false) ctrlr8 (irq0Slot false) 0 }
      0 (irq0Slot false) ctrlr8 rfl rfl rfl (by decide) (by decide) rfl).2.1⟩

/-- Counterexample to C4 as stated: line 3 is unmasked (masked = 0), active
high and edge triggered; `ioapic_setup` for a level-triggered, active-low
vector rewrites polarity and trigger mode to 1 while the masked bit is 0, at
the low-word write and at the end of the call. -/
theorem C4_setup_reprograms_unmasked_line :
    ((entryOf (fun _ => zeroRegs) ctrlr8 3).masked,
      (entryOf (fun _ => zeroRegs) ctrlr8 3).polarity,
      (entryOf (fun _ => zeroRegs) ctrlr8 3).triggerMode) = (0, 0, 0) ∧
    ((entryOf (setupAfterLo (fun _ => zeroRegs) ctrlr8 levelLowSlot) ctrlr8 3).masked,
      (entryOf (setupAfterLo (fun _ => zeroRegs) ctrlr8 levelLowSlot) ctrlr8 3).polarity,
      (entryOf (setupAfterLo (fun _ => zeroRegs) ctrlr8 levelLowSlot) ctrlr8 3).triggerMode) =
      (0, 1, 1) ∧
    (ioapic_setup (fun _ => zeroRegs) ctrlr8 levelLowSlot).map
      (fun m' => ((entryOf m' ctrlr8 3).masked, (entryOf m' ctrlr8 3).polarity,
        (entryOf m' ctrlr8 3).triggerMode)) = some (0, 1, 1) := by
  decide

/-- C10 at the failing input: one controller with `baseIRQ = 0` whose version
register reports eight lines and `nGlobalIRQ = 0` before: `ioapic_ctrlr_init`
stores `nIRQ = 8`, binds IRQ 7 to slot 7 and leaves `nGlobalIRQ = 7`, so IRQ 7
is bound and is not below `nGlobalIRQ`. Likewise with twenty-four lines and
`nGlobalIRQ = 16` before: IRQ 23 is bound and `nGlobalIRQ = 23`. -/
theorem C10_nGlobalIRQ_excludes_last_bound_irq :
    (ioapic_ctrlr_init boot8 0).map
      (fun s => (s.nGlobalIRQ, s.ioapic.map (fun c => c.nIRQ), s.IrqVector 7,
        (s.VectorMap[7]?).map (fun v => (v.type, v.irq)))) =
      some (7, [8], some 7, some (VecType.vt_Interrupt, 7)) ∧
    (ioapic_ctrlr_init boot24 0).map
      (fun s => (s.nGlobalIRQ, s.ioapic.map (fun c => c.nIRQ), s.IrqVector 23,
        (s.VectorMap[23]?).map (fun v => (v.type, v.irq)))) =
      some (23, [24], some 23, some (VecType.vt_Interrupt, 23)) :=
  ⟨by decide, by decide⟩

/-! ## The scan for an unbound slot -/

theorem scanUnbound_eq_findIdx (l : List VectorInfo) (vec : Nat) :
    scanUnbound l vec = l.findIdx? (fun v => decide (v.type = VecType.vt_Unbound)) vec := by
  induction l generalizing vec with
  | nil => rfl
  | cons a t ih =>
    simp only [scanUnbound, List.findIdx?_cons, ih]
    by_cases h : a.type = VecType.vt_Unbound <;> simp [h]

theorem findIdx_drop_cursor (p : VectorInfo → Bool) (vec : Nat) :
    ∀ (l : List VectorInfo) (s : Nat),
      (∀ j x, j < vec → l[j]? = some x → p x = false) →
      (l.drop vec).findIdx? p (s + vec) = l.findIdx? p s := by
  induction vec with
  | zero => intro l s _; simp
  | succ n ih =>
    intro l s h
    cases l with
    | nil => simp
    | cons a t =>
      have ha : p a = false := h 0 a (Nat.succ_pos n) (by simp)
      have ht : ∀ j x, j < n → t[j]? = some x → p x = false := by
        intro j x hj hx
        exact h (j + 1) x (Nat.succ_lt_succ hj) (by simpa using hx)
      have := ih t (s + 1) ht
      simp only [List.drop_succ_cons, List.findIdx?_cons, ha]
      rw [← this]
      congr 1
      omega

/-- The scan resumed at the cursor finds the first unbound slot of the whole
table when no slot below the cursor is unbound. -/
theorem scan_from_cursor (vm : List VectorInfo) (vec : Nat)
    (h : ∀ j x, j < vec → vm[j]? = some x → x.type ≠ VecType.vt_Unbound) :
    scanUnbound (vm.drop vec) vec = firstUnbound vm := by
  rw [scanUnbound_eq_findIdx, firstUnbound]
  have := findIdx_drop_cursor (fun v => decide (v.type = VecType.vt_Unbound)) vec vm 0
    (by intro j x hj hx; simpa using h j x hj hx)
  simpa using this

theorem firstUnbound_spec (vm : List VectorInfo) (v : Nat) (h : firstUnbound vm = some v) :
    ∃ slot, vm[v]? = some slot ∧ slot.type = VecType.vt_Unbound ∧
      ∀ j x, j < v → vm[j]? = some x → x.type ≠ VecType.vt_Unbound := by
  unfold firstUnbound at h
  rw [List.findIdx?_eq_some_iff_getElem] at h
  obtain ⟨hlt, hp, hlow⟩ := h
  refine ⟨vm[v], by simp [hlt], by simpa using hp, ?_⟩
  intro j x hj hx
  have hjl : j < vm.length := Nat.lt_trans hj hlt
  have := hlow j hj
  rw [List.getElem?_eq_getElem hjl] at hx
  injection hx with hx
  subst hx
  simpa using this

theorem firstUnbound_of_count (vm : List VectorInfo) (h : 0 < countUnbound vm) :
    ∃ v, firstUnbound vm = some v := by
  unfold countUnbound at h
  rw [List.countP_pos_iff] at h
  unfold firstUnbound
  exact ⟨_, List.findIdx?_eq_some_of_exists h⟩

theorem countUnbound_set (vm : List VectorInfo) (v : Nat) (slot new : VectorInfo)
    (hs : vm[v]? = some slot) (ht : slot.type = VecType.vt_Unbound)
    (hn : new.type ≠ VecType.vt_Unbound) :
    countUnbound (vm.set v new) + 1 = countUnbound vm := by
  have hlt : v < vm.length := by
    by_contra hc
    rw [List.getElem?_eq_none (Nat.le_of_not_lt hc)] at hs
    cases hs
  have hget : vm[v] = slot := by
    rw [List.getElem?_eq_getElem hlt] at hs
    injection hs
  unfold countUnbound
  rw [List.countP_set _ _ _ _ hlt, hget]
  have hpos : 0 < List.countP (fun v => decide (v.type = VecType.vt_Unbound)) vm := by
    rw [List.countP_pos_iff]
    exact ⟨slot, hget ▸ List.getElem_mem hlt, by simp [ht]⟩
  simp [ht, hn]
  omega

/-! ## One allocation -/

theorem getElem?_lt {α : Type} (l : List α) (i : Nat) (x : α) (h : l[i]? = some x) :
    i < l.length := by
  by_contra hc
  rw [List.getElem?_eq_none (Nat.le_of_not_lt hc)] at h
  cases h

theorem irq_Disable_after_bind (st : KState) (ci irq v : Nat) (slot : VectorInfo)
    (hs : st.VectorMap[v]? = some slot) :
    irq_Disable
        { st with
          VectorMap := st.VectorMap.set v (boundSlot slot irq ci),
          IrqVector := Function.update st.IrqVector irq (some v) } irq =
      match st.ioapic[ci]? with
      | none => none
      | some cc => some (allocated st ci irq v slot cc) := by
  have hlt := getElem?_lt _ _ _ hs
  simp only [irq_Disable, irq_MapInterrupt, Function.update_same, List.getElem?_set_self hlt,
    ctrlrOf, boundSlot]
  cases st.ioapic[ci]? <;> rfl

theorem allocateVector_eq (st : KState) (ci : Nat) (c : IrqController) (pin v : Nat)
    (slot : VectorInfo) (hf : firstUnbound st.VectorMap = some v)
    (hs : st.VectorMap[v]? = some slot) :
    allocateVector st ci c pin =
      match st.ioapic[ci]? with
      | none => none
      | some cc => some (allocated st ci (c.baseIRQ + pin) v slot cc) := by
  simp only [allocateVector, hf, hs]
  exact irq_Disable_after_bind st ci (c.baseIRQ + pin) v slot hs

theorem allocateVector_some (st st' : KState) (ci : Nat) (c : IrqController) (pin : Nat)
    (h : allocateVector st ci c pin = some st') :
    ∃ v slot cc, firstUnbound st.VectorMap = some v ∧ st.VectorMap[v]? = some slot ∧
      slot.type = VecType.vt_Unbound ∧
      (∀ j x, j < v → st.VectorMap[j]? = some x → x.type ≠ VecType.vt_Unbound) ∧
      st.ioapic[ci]? = some cc ∧ st' = allocated st ci (c.baseIRQ + pin) v slot cc := by
  cases hf : firstUnbound st.VectorMap with
  | none => simp [allocateVector, hf] at h
  | some v =>
    obtain ⟨slot, hs, ht, hlow⟩ := firstUnbound_spec _ _ hf
    rw [allocateVector_eq st ci c pin v slot hf hs] at h
    cases hc : st.ioapic[ci]? with
    | none => simp [hc] at h
    | some cc =>
      simp only [hc, Option.some.injEq] at h
      exact ⟨v, slot, cc, rfl, hs, ht, hlow, rfl, h.symm⟩

theorem allocateVector_ok (st : KState) (ci : Nat) (c cc : IrqController) (pin : Nat)
    (hc : st.ioapic[ci]? = some cc) (hu : 0 < countUnbound st.VectorMap) :
    ∃ st', allocateVector st ci c pin = some st' := by
  obtain ⟨v, hf⟩ := firstUnbound_of_count _ hu
  obtain ⟨slot, hs, _, _⟩ := firstUnbound_spec _ _ hf
  rw [allocateVector_eq st ci c pin v slot hf hs, hc]
  exact ⟨_, rfl⟩

theorem ctrlrInitPin_eq (st : KState) (ci : Nat) (c : IrqController) (pin vec : Nat)
    (hcur : ∀ j x, j < vec → st.VectorMap[j]? = some x → x.type ≠ VecType.vt_Unbound) :
    ctrlrInitPin ci c st pin vec =
      match firstUnbound st.VectorMap with
      | none => none
      | some v => (allocateVector st ci c pin).map (fun s => (s, v)) := by
  simp only [ctrlrInitPin, scan_from_cursor _ _ hcur]
  cases hf : firstUnbound st.VectorMap with
  | none => rfl
  | some v =>
    obtain ⟨slot, hs, _, _⟩ := firstUnbound_spec _ _ hf
    simp only [hs]
    rw [allocateVector_eq st ci c pin v slot hf hs, irq_Disable_after_bind st ci _ v slot hs]
    cases st.ioapic[ci]? <;> rfl

theorem allocated_cursor (st : KState) (ci irq v : Nat) (slot : VectorInfo) (cc : IrqController)
    (hlow : ∀ j x, j < v → st.VectorMap[j]? = some x → x.type ≠ VecType.vt_Unbound) :
    ∀ j x, j < v → (allocated st ci irq v slot cc).VectorMap[j]? = some x →
      x.type ≠ VecType.vt_Unbound := by
  intro j x hj hx
  simp only [allocated] at hx
  rw [List.getElem?_set_ne (Nat.ne_of_gt hj)] at hx
  exact hlow j x hj hx

/-- The loop of `ioapic_ctrlr_init`, which resumes its scan at the slot bound
last, performs the allocations of `allocateLines`, which scans the whole table
for every line, whenever no slot below the cursor is unbound. -/
theorem ctrlrInitLoop_eq_allocateLines (ci : Nat) (c : IrqController) :
    ∀ (k pin vec : Nat) (st : KState),
      (∀ j x, j < vec → st.VectorMap[j]? = some x → x.type ≠ VecType.vt_Unbound) →
      ctrlrInitLoop ci c k pin vec st = allocateLines ci c k pin st := by
  intro k
  induction k with
  | zero => intro pin vec st _; rfl
  | succ k ih =>
    intro pin vec st hcur
    simp only [ctrlrInitLoop, allocateLines, ctrlrInitPin_eq st ci c pin vec hcur]
    cases hf : firstUnbound st.VectorMap with
    | none => simp [allocateVector, hf]
    | some v =>
      cases ha : allocateVector st ci c pin with
      | none => rfl
      | some st1 =>
        obtain ⟨v', slot, cc, hf', hs, ht, hlow, hc, hst1⟩ := allocateVector_some _ _ _ _ _ ha
        rw [hf] at hf'
        injection hf' with hv
        subst hv
        simp only [Option.map_some']
        apply ih
        rw [hst1]
        exact allocated_cursor st ci _ v slot cc hlow

/-! ## A run of allocations -/

theorem allocateLines_ok (ci : Nat) (c cc : IrqController) :
    ∀ (k pin : Nat) (st : KState), st.ioapic[ci]? = some cc →
      k ≤ countUnbound st.VectorMap → ∃ st', allocateLines ci c k pin st = some st' := by
  intro k
  induction k with
  | zero => intro pin st _ _; exact ⟨st, rfl⟩
  | succ k ih =>
    intro pin st hc hu
    obtain ⟨st1, h1⟩ := allocateVector_ok st ci c cc pin hc (by omega)
    obtain ⟨v, slot, cc', _, hs, ht, _, hc', hst1⟩ := allocateVector_some _ _ _ _ _ h1
    have hcnt : countUnbound st1.VectorMap + 1 = countUnbound st.VectorMap := by
      rw [hst1]
      exact countUnbound_set _ v slot _ hs ht (by simp [boundSlot])
    have hc1 : st1.ioapic[ci]? = some cc := by rw [hst1]; exact hc
    obtain ⟨st', h'⟩ := ih (pin + 1) st1 hc1 (by omega)
    exact ⟨st', by simp only [allocateLines, h1, h']⟩

/-- What a run of `k` allocations for the lines `pin, ..., pin + k - 1` of
controller `ci` leaves: the registry and the counters are untouched, every
slot that was not unbound is unchanged, every slot is either unchanged or an
unbound slot bound to one of the lines with the reverse index pointing to it,
every line has its slot, and the reverse index is unchanged elsewhere. -/
theorem allocateLines_spec (ci : Nat) (c : IrqController) :
    ∀ (k pin : Nat) (st st' : KState), allocateLines ci c k pin st = some st' →
      st'.ioapic = st.ioapic ∧ st'.nGlobalIRQ = st.nGlobalIRQ ∧ st'.calls = st.calls ∧
      st'.outbLog = st.outbLog ∧ st'.cpu0_lapic_id = st.cpu0_lapic_id ∧
      st'.VectorMap.length = st.VectorMap.length ∧
      countUnbound st'.VectorMap + k = countUnbound st.VectorMap ∧
      (∀ (v : Nat) (slot0 : VectorInfo), st.VectorMap[v]? = some slot0 → slot0.type ≠ VecType.vt_Unbound →
        st'.VectorMap[v]? = some slot0) ∧
      (∀ (v : Nat) (slot' : VectorInfo), st'.VectorMap[v]? = some slot' →
        st.VectorMap[v]? = some slot' ∨
        ∃ slot0 p, st.VectorMap[v]? = some slot0 ∧ slot0.type = VecType.vt_Unbound ∧
          pin ≤ p ∧ p < pin + k ∧ slot' = boundSlot slot0 (c.baseIRQ + p) ci ∧
          st'.IrqVector (c.baseIRQ + p) = some v) ∧
      (∀ p : Nat, pin ≤ p → p < pin + k →
        ∃ (v : Nat) (slot0 : VectorInfo), st.VectorMap[v]? = some slot0 ∧ slot0.type = VecType.vt_Unbound ∧
          st'.VectorMap[v]? = some (boundSlot slot0 (c.baseIRQ + p) ci) ∧
          st'.IrqVector (c.baseIRQ + p) = some v) ∧
      (∀ irq : Nat, (∀ p : Nat, pin ≤ p → p < pin + k → irq ≠ c.baseIRQ + p) →
        st'.IrqVector irq = st.IrqVector irq) := by
  intro k
  induction k with
  | zero =>
    intro pin st st' h
    simp only [allocateLines, Option.some.injEq] at h
    subst h
    refine ⟨rfl, rfl, rfl, rfl, rfl, rfl, rfl, ?_, ?_, ?_, ?_⟩
    · intro v slot0 h _; exact h
    · intro v slot' h; exact Or.inl h
    · intro p h1 h2; omega
    · intro irq _; rfl
  | succ k ih =>
    intro pin st st' h
    simp only [allocateLines] at h
    cases h1 : allocateVector st ci c pin with
    | none => simp [h1] at h
    | some st1 =>
      simp only [h1] at h
      obtain ⟨v1, slot1, cc, _, hs1, ht1, _, hc1, hst1⟩ := allocateVector_some _ _ _ _ _ h1
      obtain ⟨i1, i2, i3, i4, i5, i6, i7, i8, i9, i10, i11⟩ := ih (pin + 1) st1 st' h
      have hlt1 := getElem?_lt _ _ _ hs1
      have hvm1 : st1.VectorMap = st.VectorMap.set v1 (boundSlot slot1 (c.baseIRQ + pin) ci) := by
        rw [hst1]; rfl
      have hiv1 : st1.IrqVector = Function.update st.IrqVector (c.baseIRQ + pin) (some v1) := by
        rw [hst1]; rfl
      have hb1 : st1.VectorMap[v1]? = some (boundSlot slot1 (c.baseIRQ + pin) ci) := by
        rw [hvm1, List.getElem?_set_self hlt1]
      have hother : ∀ v, v ≠ v1 → st1.VectorMap[v]? = st.VectorMap[v]? := by
        intro v hv
        rw [hvm1, List.getElem?_set_ne (Ne.symm hv)]
      have hcnt : countUnbound st1.VectorMap + 1 = countUnbound st.VectorMap := by
        rw [hvm1]
        exact countUnbound_set _ v1 slot1 _ hs1 ht1 (by simp [boundSlot])
      have hirq1 : st'.IrqVector (c.baseIRQ + pin) = some v1 := by
        rw [i11 (c.baseIRQ + pin) (by intro p hp _; omega), hiv1, Function.update_same]
      have hfin1 : st'.VectorMap[v1]? = some (boundSlot slot1 (c.baseIRQ + pin) ci) :=
        i8 v1 _ hb1 (by simp [boundSlot])
      refine ⟨?_, ?_, ?_, ?_, ?_, ?_, ?_, ?_, ?_, ?_, ?_⟩
      · rw [i1, hst1]; rfl
      · rw [i2, hst1]; rfl
      · rw [i3, hst1]; rfl
      · rw [i4, hst1]; rfl
      · rw [i5, hst1]; rfl
      · rw [i6, hvm1, List.length_set]
      · omega
      · intro v slot0 hv hne
        apply i8 v slot0 _ hne
        have : v ≠ v1 := by
          rintro rfl
          rw [hs1] at hv
          injection hv with hv
          exact hne (hv ▸ ht1)
        rw [hother v this]; exact hv
      · intro v slot' hv
        rcases i9 v slot' hv with hsame | ⟨slot0, p, h0, hu0, hp1, hp2, hsl, hiv⟩
        · by_cases hvv : v = v1
          · subst hvv
            rw [hb1] at hsame
            injection hsame with hsame
            exact Or.inr ⟨slot1, pin, hs1, ht1, Nat.le_refl _, by omega, hsame.symm, hirq1⟩
          · rw [hother v hvv] at hsame
            exact Or.inl hsame
        · have hvv : v ≠ v1 := by
            rintro rfl
            rw [hb1] at h0
            injection h0 with h0
            rw [← h0] at hu0
            simp [boundSlot] at hu0
          rw [hother v hvv] at h0
          exact Or.inr ⟨slot0, p, h0, hu0, by omega, by omega, hsl, hiv⟩
      · intro p hp1 hp2
        by_cases hpp : p = pin
        · subst hpp
          exact ⟨v1, slot1, hs1, ht1, hfin1, hirq1⟩
        · obtain ⟨v, slot0, h0, hu0, hb, hiv⟩ := i10 p (by omega) (by omega)
          have hvv : v ≠ v1 := by
            rintro rfl
            rw [hb1] at h0
            injection h0 with h0
            rw [← h0] at hu0
            simp [boundSlot] at hu0
          rw [hother v hvv] at h0
          exact ⟨v, slot0, h0, hu0, hb, hiv⟩
      · intro irq hirq
        rw [i11 irq (by intro p hp1 hp2; exact hirq p (by omega) (by omega)), hiv1,
          Function.update_noteq (hirq pin (Nat.le_refl _) (by omega))]

/-! ## ioapic_ctrlr_init -/

theorem ctrlrInitHead_fields (st : KState) (ci : Nat) (c : IrqController) :
    (ctrlrInitHead st ci c).1.VectorMap = st.VectorMap ∧
    (ctrlrInitHead st ci c).1.IrqVector = st.IrqVector ∧
    (ctrlrInitHead st ci c).1.ioapic = st.ioapic.set ci { c with nIRQ := lineCount st.mmio c } ∧
    (ctrlrInitHead st ci c).1.calls = st.calls ∧
    (ctrlrInitHead st ci c).1.outbLog = st.outbLog ∧
    (ctrlrInitHead st ci c).1.cpu0_lapic_id = st.cpu0_lapic_id ∧
    (ctrlrInitHead st ci c).2 = { c with nIRQ := lineCount st.mmio c } ∧
    (∀ va, ((ctrlrInitHead st ci c).1.mmio va).regs = (st.mmio va).regs) := by
  refine ⟨rfl, rfl, ?_, rfl, rfl, rfl, ?_, ?_⟩
  · simp [ctrlrInitHead, ioapic_read_reg, lineCount, IOAPIC_VERSION, IOAPIC_ID]
  · simp [ctrlrInitHead, ioapic_read_reg, lineCount, IOAPIC_VERSION, IOAPIC_ID]
  · intro va
    by_cases h : va = c.va
    · subst h; simp [ctrlrInitHead, ioapic_read_reg]
    · simp [ctrlrInitHead, ioapic_read_reg, Function.update_noteq h]

theorem allocateLines_baseIRQ (ci : Nat) (c c' : IrqController) (hb : c'.baseIRQ = c.baseIRQ) :
    ∀ (k pin : Nat) (st : KState),
      allocateLines ci c' k pin st = allocateLines ci c k pin st := by
  intro k
  induction k with
  | zero => intro pin st; rfl
  | succ k ih =>
    intro pin st
    have : allocateVector st ci c' pin = allocateVector st ci c pin := by
      simp only [allocateVector, hb]
    simp only [allocateLines, this, ih]

theorem ioapic_ctrlr_init_eq (st : KState) (ci : Nat) (c : IrqController)
    (hc : st.ioapic[ci]? = some c) :
    ioapic_ctrlr_init st ci =
      allocateLines ci c (lineCount st.mmio c) 0 (ctrlrInitHead st ci c).1 := by
  have hf := ctrlrInitHead_fields st ci c
  simp only [ioapic_ctrlr_init, hc]
  rw [ctrlrInitLoop_eq_allocateLines ci _ _ 0 0 _ (by intro j x hj; omega)]
  rw [hf.2.2.2.2.2.2.1]
  exact allocateLines_baseIRQ ci c { c with nIRQ := lineCount st.mmio c } rfl _ 0 _

/-- C9: when the table holds at least as many `Unbound` slots as the controller
has lines, `ioapic_ctrlr_init` completes (no scan leaves the table) and, its
scan cursor notwithstanding, performs for the lines in increasing order the
allocations of `allocateLines`, each of which binds the lowest-indexed
`Unbound` slot of the whole table at that moment. Every line `pin` thus has a
formerly `Unbound` slot, now `Interrupt` with `irq = baseIRQ + pin`,
`enabled = 0` and the controller recorded, to which the reverse index of that
irq points; every other slot is unchanged. -/
theorem C9_ctrlr_init_binds_first_unbound_slots (st : KState) (ci : Nat) (c : IrqController)
    (hc : st.ioapic[ci]? = some c)
    (hu : lineCount st.mmio c ≤ countUnbound st.VectorMap) :
    ∃ st', ioapic_ctrlr_init st ci = some st' ∧
      allocateLines ci c (lineCount st.mmio c) 0 (ctrlrInitHead st ci c).1 = some st' ∧
      (∀ pin : Nat, pin < lineCount st.mmio c →
        ∃ (v : Nat) (slot0 : VectorInfo), st.VectorMap[v]? = some slot0 ∧
          slot0.type = VecType.vt_Unbound ∧
          st'.VectorMap[v]? = some (boundSlot slot0 (c.baseIRQ + pin) ci) ∧
          st'.IrqVector (c.baseIRQ + pin) = some v) ∧
      (∀ (v : Nat) (slot' : VectorInfo), st'.VectorMap[v]? = some slot' →
        st.VectorMap[v]? = some slot' ∨
        ∃ (slot0 : VectorInfo) (pin : Nat), st.VectorMap[v]? = some slot0 ∧
          slot0.type = VecType.vt_Unbound ∧ pin < lineCount st.mmio c ∧
          slot' = boundSlot slot0 (c.baseIRQ + pin) ci) := by
  have hf := ctrlrInitHead_fields st ci c
  have hc1 : (ctrlrInitHead st ci c).1.ioapic[ci]? =
      some { c with nIRQ := lineCount st.mmio c } := by
    rw [hf.2.2.1, List.getElem?_set_self (getElem?_lt _ _ _ hc)]
  obtain ⟨st', h'⟩ := allocateLines_ok ci c _ (lineCount st.mmio c) 0 _ hc1
    (by rw [hf.1]; exact hu)
  obtain ⟨_, _, _, _, _, _, _, _, i9, i10, _⟩ := allocateLines_spec ci c _ _ _ _ h'
  rw [hf.1] at i9 i10
  refine ⟨st', by rw [ioapic_ctrlr_init_eq st ci c hc, h'], h', ?_, ?_⟩
  · intro pin hp
    exact i10 pin (Nat.zero_le _) (by omega)
  · intro v slot' hv
    rcases i9 v slot' hv with h | ⟨slot0, p, h0, hu0, _, hp, hsl, _⟩
    · exact Or.inl h
    · exact Or.inr ⟨slot0, p, h0, hu0, by omega, hsl⟩

/-- Witness of C9: the controller of `boot8`, eight lines and ten unbound slots. -/
theorem C9_ctrlr_init_binds_first_unbound_slots_witness :
    ∃ st', ioapic_ctrlr_init boot8 0 = some st' ∧
      allocateLines 0 ctrlr8 (lineCount boot8.mmio ctrlr8) 0 (ctrlrInitHead boot8 0 ctrlr8).1 =
        some st' ∧
      (∀ pin : Nat, pin < lineCount boot8.mmio ctrlr8 →
        ∃ (v : Nat) (slot0 : VectorInfo), boot8.VectorMap[v]? = some slot0 ∧
          slot0.type = VecType.vt_Unbound ∧
          st'.VectorMap[v]? = some (boundSlot slot0 (ctrlr8.baseIRQ + pin) 0) ∧
          st'.IrqVector (ctrlr8.baseIRQ + pin) = some v) ∧
      (∀ (v : Nat) (slot' : VectorInfo), st'.VectorMap[v]? = some slot' →
        boot8.VectorMap[v]? = some slot' ∨
        ∃ (slot0 : VectorInfo) (pin : Nat), boot8.VectorMap[v]? = some slot0 ∧
          slot0.type = VecType.vt_Unbound ∧ pin < lineCount boot8.mmio ctrlr8 ∧
          slot' = boundSlot slot0 (ctrlr8.baseIRQ + pin) 0) :=
  C9_ctrlr_init_binds_first_unbound_slots boot8 0 ctrlr8 rfl (by decide)

/-! ## Forward and reverse index -/

theorem tableInv_allocateLines (ci : Nat) (c : IrqController) (k pin : Nat) (st st' : KState)
    (S : Nat → Prop) (h : allocateLines ci c k pin st = some st') (hinv : tableInv st S)
    (hnew : ∀ p : Nat, pin ≤ p → p < pin + k → ¬ S (c.baseIRQ + p)) :
    tableInv st' (fun irq => S irq ∨ ∃ p : Nat, pin ≤ p ∧ p < pin + k ∧ irq = c.baseIRQ + p) := by
  obtain ⟨_, _, _, _, _, _, _, i8, i9, i10, i11⟩ := allocateLines_spec ci c k pin st st' h
  obtain ⟨hfwd, hbwd⟩ := hinv
  constructor
  · intro v slot' hv ht
    rcases i9 v slot' hv with hsame | ⟨slot0, p, h0, hu0, hp1, hp2, hsl, hiv⟩
    · obtain ⟨hr, hS⟩ := hfwd v slot' hsame ht
      refine ⟨?_, Or.inl hS⟩
      rw [i11 slot'.irq (by intro p hp1 hp2 he; exact hnew p hp1 hp2 (he ▸ hS))]
      exact hr
    · subst hsl
      exact ⟨hiv, Or.inr ⟨p, hp1, hp2, rfl⟩⟩
  · intro irq hS
    rcases hS with hS | ⟨p, hp1, hp2, he⟩
    · obtain ⟨v, slot, hr, hv, ht, hi⟩ := hbwd irq hS
      refine ⟨v, slot, ?_, i8 v slot hv (by rw [ht]; decide), ht, hi⟩
      rw [i11 irq (by intro p hp1 hp2 he; exact hnew p hp1 hp2 (he ▸ hS))]
      exact hr
    · subst he
      obtain ⟨v, slot0, _, _, hb, hiv⟩ := i10 p hp1 hp2
      exact ⟨v, _, hiv, hb, rfl, rfl⟩

theorem rmw_set_masked_version (m : Nat → RegFile) (c : IrqController) (pin v : Nat)
    (va : Nat) :
    (rmwEntry m c pin (fun e => e.set_masked v) va).regs IOAPIC_VERSION % 2 ^ 32 =
      (m va).regs IOAPIC_VERSION % 2 ^ 32 := by
  by_cases h : va = c.va
  · subst h
    have hlo : IOAPIC_VERSION ≠ IOAPIC_ENTRYLO pin % 2 ^ 32 := by
      unfold IOAPIC_VERSION IOAPIC_ENTRYLO; omega
    by_cases hhi : IOAPIC_VERSION = IOAPIC_ENTRYHI pin % 2 ^ 32
    · simp only [rmwEntry, ← hhi, Function.update_same, IoAPIC_Entry.set_masked, Nat.mod_mod]
    · rw [rmwEntry_regs_other m c pin _ _ hlo hhi]
  · rw [rmwEntry_other_window _ _ _ _ _ h]

theorem allocateLines_version (ci : Nat) (c : IrqController) :
    ∀ (k pin : Nat) (st st' : KState), allocateLines ci c k pin st = some st' →
      ∀ va : Nat, (st'.mmio va).regs IOAPIC_VERSION % 2 ^ 32 =
        (st.mmio va).regs IOAPIC_VERSION % 2 ^ 32 := by
  intro k
  induction k with
  | zero =>
    intro pin st st' h va
    simp only [allocateLines, Option.some.injEq] at h
    rw [← h]
  | succ k ih =>
    intro pin st st' h va
    simp only [allocateLines] at h
    cases h1 : allocateVector st ci c pin with
    | none => simp [h1] at h
    | some st1 =>
      simp only [h1] at h
      obtain ⟨v1, slot1, cc, _, _, _, _, _, hst1⟩ := allocateVector_some _ _ _ _ _ h1
      rw [ih (pin + 1) st1 st' h va, hst1]
      simp only [allocated, ioapic_disable_eq]
      exact rmw_set_masked_version _ _ _ 1 va

theorem lineCount_congr (m m' : Nat → RegFile) (c c' : IrqController) (hva : c'.va = c.va)
    (hver : ∀ va : Nat, (m' va).regs IOAPIC_VERSION % 2 ^ 32 =
      (m va).regs IOAPIC_VERSION % 2 ^ 32) :
    lineCount m' c' = lineCount m c := by
  simp only [lineCount, hva, hver]

/-- What `ioapic_ctrlr_init` of controller `i` leaves besides the table. -/
theorem ioapic_ctrlr_init_frame (st st' : KState) (i : Nat) (c : IrqController)
    (hc : st.ioapic[i]? = some c) (h : ioapic_ctrlr_init st i = some st') :
    st'.ioapic = st.ioapic.set i { c with nIRQ := lineCount st.mmio c } ∧
    st'.cpu0_lapic_id = st.cpu0_lapic_id ∧ st'.calls = st.calls ∧
    st'.VectorMap.length = st.VectorMap.length ∧
    (∀ va : Nat, (st'.mmio va).regs IOAPIC_VERSION % 2 ^ 32 =
      (st.mmio va).regs IOAPIC_VERSION % 2 ^ 32) := by
  rw [ioapic_ctrlr_init_eq st i c hc] at h
  have hf := ctrlrInitHead_fields st i c
  obtain ⟨i1, _, i3, _, i5, i6, _⟩ := allocateLines_spec i c _ _ _ _ h
  refine ⟨by rw [i1, hf.2.2.1], by rw [i5, hf.2.2.2.2.2.1], by rw [i3, hf.2.2.2.1],
    by rw [i6, hf.1], ?_⟩
  intro va
  rw [allocateLines_version i c _ _ _ _ h va, hf.2.2.2.2.2.2.2 va]

theorem tableInv_ctrlr_init (st st' : KState) (i : Nat) (c : IrqController) (S : Nat → Prop)
    (hc : st.ioapic[i]? = some c) (h : ioapic_ctrlr_init st i = some st') (hinv : tableInv st S)
    (hnew : ∀ p : Nat, p < lineCount st.mmio c → ¬ S (c.baseIRQ + p)) :
    tableInv st' (fun irq => S irq ∨ ∃ p : Nat, p < lineCount st.mmio c ∧ irq = c.baseIRQ + p) := by
  rw [ioapic_ctrlr_init_eq st i c hc] at h
  have hf := ctrlrInitHead_fields st i c
  have hinv1 : tableInv (ctrlrInitHead st i c).1 S := by
    unfold tableInv irqHasVector
    rw [hf.1, hf.2.1]
    exact hinv
  have := tableInv_allocateLines i c _ 0 _ st' S h hinv1
    (by intro p _ hp; exact hnew p (by omega))
  have heq : (fun irq => S irq ∨ ∃ p : Nat, 0 ≤ p ∧ p < 0 + lineCount st.mmio c ∧
      irq = c.baseIRQ + p) =
      (fun irq => S irq ∨ ∃ p : Nat, p < lineCount st.mmio c ∧ irq = c.baseIRQ + p) := by
    funext irq
    simp
  rw [heq] at this
  exact this

theorem tableInv_congr (st : KState) (S S' : Nat → Prop) (h : ∀ irq : Nat, S irq ↔ S' irq)
    (hinv : tableInv st S) : tableInv st S' := by
  have : S = S' := funext (fun irq => propext (h irq))
  rw [← this]; exact hinv

theorem initCtrlrs_inv (m0 : Nat → RegFile) (cs : List IrqController)
    (hd : rangesDisjoint m0 cs) :
    ∀ (k i : Nat) (st st' : KState), initCtrlrs k i st = some st' → sameRegistry m0 cs st →
      tableInv st (irqGiven m0 cs i) →
      tableInv st' (irqGiven m0 cs (i + k)) ∧ sameRegistry m0 cs st' ∧
      st'.cpu0_lapic_id = st.cpu0_lapic_id ∧ st'.calls = st.calls ∧
      st'.VectorMap.length = st.VectorMap.length := by
  intro k
  induction k with
  | zero =>
    intro i st st' h hreg hinv
    simp only [initCtrlrs, Option.some.injEq] at h
    subst h
    exact ⟨hinv, hreg, rfl, rfl, rfl⟩
  | succ k ih =>
    intro i st st' h hreg hinv
    simp only [initCtrlrs] at h
    cases h1 : ioapic_ctrlr_init st i with
    | none => simp [h1] at h
    | some st1 =>
      simp only [h1] at h
      cases hc : st.ioapic[i]? with
      | none => simp [ioapic_ctrlr_init, hc] at h1
      | some c =>
        obtain ⟨hlen, hsame, hver⟩ := hreg
        obtain ⟨c0, hc0, hb0, hva0⟩ := hsame i c hc
        have hlc : lineCount st.mmio c = lineCount m0 c0 := lineCount_congr m0 st.mmio c0 c hva0 hver
        obtain ⟨f1, f2, f3, f4, f5⟩ := ioapic_ctrlr_init_frame st st1 i c hc h1
        have hnew : ∀ p : Nat, p < lineCount st.mmio c → ¬ irqGiven m0 cs i (c.baseIRQ + p) := by
          rintro p hp ⟨j, cj, q, hj, hcj, hq, he⟩
          rw [hlc] at hp
          rw [hb0] at he
          exact hd j i cj c0 q p hj hcj hc0 hq hp he.symm
        have hinv1 := tableInv_ctrlr_init st st1 i c _ hc h1 hinv hnew
        have hinv1' : tableInv st1 (irqGiven m0 cs (i + 1)) := by
          apply tableInv_congr st1 _ _ _ hinv1
          intro irq
          constructor
          · rintro (⟨j, cj, q, hj, hcj, hq, he⟩ | ⟨p, hp, he⟩)
            · exact ⟨j, cj, q, by omega, hcj, hq, he⟩
            · exact ⟨i, c0, p, by omega, hc0, by rw [← hlc]; exact hp, by rw [← hb0]; exact he⟩
          · rintro ⟨j, cj, q, hj, hcj, hq, he⟩
            by_cases hji : j = i
            · subst hji
              rw [hc0] at hcj
              injection hcj with hcj
              subst hcj
              exact Or.inr ⟨q, by rw [hlc]; exact hq, by rw [hb0]; exact he⟩
            · exact Or.inl ⟨j, cj, q, by omega, hcj, hq, he⟩
        have hreg1 : sameRegistry m0 cs st1 := by
          refine ⟨by rw [f1, List.length_set]; exact hlen, ?_, fun va => by rw [f5 va, hver va]⟩
          intro j cj hj
          rw [f1] at hj
          by_cases hji : i = j
          · subst hji
            rw [List.getElem?_set_self (getElem?_lt _ _ _ hc)] at hj
            injection hj with hj
            subst hj
            exact ⟨c0, hc0, hb0, hva0⟩
          · rw [List.getElem?_set_ne hji] at hj
            exact hsame j cj hj
        obtain ⟨r1, r2, r3, r4, r5⟩ := ih (i + 1) st1 st' h hreg1 hinv1'
        refine ⟨?_, r2, by rw [r3, f2], by rw [r4, f3], by rw [r5, f4]⟩
        have : i + (k + 1) = i + 1 + k := by omega
        rw [this]; exact r1

/-! ## The routing loop -/

theorem routeVector_frame (st st' : KState) (vec : Nat) (h : routeVector st vec = some st') :
    st'.VectorMap = st.VectorMap ∧ st'.IrqVector = st.IrqVector ∧ st'.ioapic = st.ioapic ∧
    st'.cpu0_lapic_id = st.cpu0_lapic_id ∧ st'.calls = st.calls := by
  unfold routeVector at h
  cases hs : st.VectorMap[vec]? with
  | none => simp [hs] at h
  | some slot =>
    simp only [hs] at h
    by_cases ht : slot.type = VecType.vt_Interrupt
    · simp only [ht, ne_eq, not_true_eq_false, if_false] at h
      cases hc : ctrlrOf st slot with
      | none => simp [hc] at h
      | some c =>
        simp only [hc] at h
        cases he : slot.enabled
        · simp only [he, ne_eq, not_true_eq_false, if_false, Option.some.injEq] at h
          subst h
          exact ⟨rfl, rfl, rfl, rfl, rfl⟩
        · simp [he] at h
    · simp only [ne_eq, ht, not_false_eq_true, if_true, Option.some.injEq] at h
      subst h
      exact ⟨rfl, rfl, rfl, rfl, rfl⟩

theorem routeLoop_frame :
    ∀ (k vec : Nat) (st st' : KState), routeLoop k vec st = some st' →
      st'.VectorMap = st.VectorMap ∧ st'.IrqVector = st.IrqVector ∧ st'.ioapic = st.ioapic ∧
      st'.cpu0_lapic_id = st.cpu0_lapic_id ∧ st'.calls = st.calls := by
  intro k
  induction k with
  | zero =>
    intro vec st st' h
    simp only [routeLoop, Option.some.injEq] at h
    subst h
    exact ⟨rfl, rfl, rfl, rfl, rfl⟩
  | succ k ih =>
    intro vec st st' h
    simp only [routeLoop] at h
    cases h1 : routeVector st vec with
    | none => simp [h1] at h
    | some st1 =>
      simp only [h1] at h
      obtain ⟨a1, a2, a3, a4, a5⟩ := routeVector_frame st st1 vec h1
      obtain ⟨b1, b2, b3, b4, b5⟩ := ih (vec + 1) st1 st' h
      exact ⟨by rw [b1, a1], by rw [b2, a2], by rw [b3, a3], by rw [b4, a4], by rw [b5, a5]⟩

theorem initEntry_fields (st : KState) :
    (initEntry st).VectorMap = st.VectorMap ∧ (initEntry st).IrqVector = st.IrqVector ∧
    (initEntry st).ioapic = st.ioapic ∧ (initEntry st).mmio = st.mmio ∧
    (initEntry st).cpu0_lapic_id = st.cpu0_lapic_id ∧ (initEntry st).calls = st.calls := by
  unfold initEntry
  split <;> exact ⟨rfl, rfl, rfl, rfl, rfl, rfl⟩

/-- The two loops of a completed `ioapic_init`. -/
theorem ioapic_init_split (st st' : KState) (h : ioapic_init st = some st') :
    ∃ st1 : KState, initCtrlrs st.ioapic.length 0 (initEntry st) = some st1 ∧
      routeLoop st1.VectorMap.length 0 (routeEntry st1) = some st' := by
  unfold ioapic_init at h
  rw [(initEntry_fields st).2.2.1] at h
  cases h1 : initCtrlrs st.ioapic.length 0 (initEntry st) with
  | none => simp [h1] at h
  | some st1 =>
    simp only [h1] at h
    exact ⟨st1, rfl, h⟩

theorem ioapic_init_some (st st1 st' : KState)
    (h1 : initCtrlrs st.ioapic.length 0 (initEntry st) = some st1)
    (h2 : routeLoop st1.VectorMap.length 0 (routeEntry st1) = some st') :
    ioapic_init st = some st' := by
  unfold ioapic_init
  rw [(initEntry_fields st).2.2.1, h1]
  exact h2

theorem hasVector_allocateLines (ci : Nat) (c : IrqController) (k pin : Nat) (st st' : KState)
    (S : Nat → Prop) (h : allocateLines ci c k pin st = some st')
    (hinv : ∀ irq : Nat, S irq → irqHasVector st irq) :
    ∀ irq : Nat, (S irq ∨ ∃ p : Nat, pin ≤ p ∧ p < pin + k ∧ irq = c.baseIRQ + p) →
      irqHasVector st' irq := by
  obtain ⟨_, _, _, _, _, _, _, i8, _, i10, i11⟩ := allocateLines_spec ci c k pin st st' h
  intro irq hS
  by_cases hnew : ∃ p : Nat, pin ≤ p ∧ p < pin + k ∧ irq = c.baseIRQ + p
  · obtain ⟨p, hp1, hp2, he⟩ := hnew
    subst he
    obtain ⟨v, slot0, _, _, hb, hiv⟩ := i10 p hp1 hp2
    exact ⟨v, _, hiv, hb, rfl, rfl⟩
  · rcases hS with hS | hS
    · obtain ⟨v, slot, hr, hv, ht, hi⟩ := hinv irq hS
      refine ⟨v, slot, ?_, i8 v slot hv (by rw [ht]; decide), ht, hi⟩
      rw [i11 irq (by intro p hp1 hp2 he; exact hnew ⟨p, hp1, hp2, he⟩)]
      exact hr
    · exact absurd hS hnew

theorem initCtrlrs_hasVector (m0 : Nat → RegFile) (cs : List IrqController) :
    ∀ (k i : Nat) (st st' : KState), initCtrlrs k i st = some st' → sameRegistry m0 cs st →
      (∀ irq : Nat, irqGiven m0 cs i irq → irqHasVector st irq) →
      (∀ irq : Nat, irqGiven m0 cs (i + k) irq → irqHasVector st' irq) := by
  intro k
  induction k with
  | zero =>
    intro i st st' h _ hinv
    simp only [initCtrlrs, Option.some.injEq] at h
    subst h
    exact hinv
  | succ k ih =>
    intro i st st' h hreg hinv
    simp only [initCtrlrs] at h
    cases h1 : ioapic_ctrlr_init st i with
    | none => simp [h1] at h
    | some st1 =>
      simp only [h1] at h
      cases hc : st.ioapic[i]? with
      | none => simp [ioapic_ctrlr_init, hc] at h1
      | some c =>
        obtain ⟨hlen, hsame, hver⟩ := hreg
        obtain ⟨c0, hc0, hb0, hva0⟩ := hsame i c hc
        have hlc : lineCount st.mmio c = lineCount m0 c0 := lineCount_congr m0 st.mmio c0 c hva0 hver
        obtain ⟨f1, f2, f3, f4, f5⟩ := ioapic_ctrlr_init_frame st st1 i c hc h1
        have hreg1 : sameRegistry m0 cs st1 := by
          refine ⟨by rw [f1, List.length_set]; exact hlen, ?_, fun va => by rw [f5 va, hver va]⟩
          intro j cj hj
          rw [f1] at hj
          by_cases hji : i = j
          · subst hji
            rw [List.getElem?_set_self (getElem?_lt _ _ _ hc)] at hj
            injection hj with hj
            subst hj
            exact ⟨c0, hc0, hb0, hva0⟩
          · rw [List.getElem?_set_ne hji] at hj
            exact hsame j cj hj
        have h1' := h1
        rw [ioapic_ctrlr_init_eq st i c hc] at h1'
        have hf := ctrlrInitHead_fields st i c
        have hinv0 : ∀ irq : Nat, irqGiven m0 cs i irq →
            irqHasVector (ctrlrInitHead st i c).1 irq := by
          intro irq hg
          have := hinv irq hg
          unfold irqHasVector at this ⊢
          rw [hf.1, hf.2.1]
          exact this
        have hstep := hasVector_allocateLines i c _ 0 _ st1 _ h1' hinv0
        have hinv1 : ∀ irq : Nat, irqGiven m0 cs (i + 1) irq → irqHasVector st1 irq := by
          rintro irq ⟨j, cj, q, hj, hcj, hq, he⟩
          apply hstep
          by_cases hji : j = i
          · subst hji
            rw [hc0] at hcj
            injection hcj with hcj
            subst hcj
            exact Or.inr ⟨q, Nat.zero_le _, by rw [hlc]; omega, by rw [hb0]; exact he⟩
          · exact Or.inl ⟨j, cj, q, by omega, hcj, hq, he⟩
        have := ih (i + 1) st1 st' h hreg1 hinv1
        have heq : i + (k + 1) = i + 1 + k := by omega
        rw [heq]; exact this

/-- C6 (amended): when `ioapic_init` has run over the registered controllers,
every IRQ of every controller has its vector: the reverse index entry of the
irq points to an `Interrupt` slot with that irq. When moreover the table held
no `Interrupt` slot before and the IRQ ranges of the controllers are pairwise
disjoint, no two `Interrupt` slots carry the same irq. -/
theorem C6_reverse_index_consistent_for_disjoint_ranges (st st' : KState)
    (hinit : ioapic_init st = some st') :
    (∀ (i : Nat) (c : IrqController) (pin : Nat), st.ioapic[i]? = some c →
      pin < lineCount st.mmio c → irqHasVector st' (c.baseIRQ + pin)) ∧
    ((∀ slot : VectorInfo, slot ∈ st.VectorMap → slot.type ≠ VecType.vt_Interrupt) →
      rangesDisjoint st.mmio st.ioapic → irqsDistinct st') := by
  obtain ⟨st1, hloop, hroute⟩ := ioapic_init_split st st' hinit
  obtain ⟨a1, a2, a3, a4, _, _⟩ := initEntry_fields st
  obtain ⟨r1, r2, _⟩ := routeLoop_frame _ _ _ _ hroute
  have hvm : st'.VectorMap = st1.VectorMap := r1
  have hiv : st'.IrqVector = st1.IrqVector := r2
  have hreg0 : sameRegistry st.mmio st.ioapic (initEntry st) := by
    refine ⟨by rw [a3], ?_, fun va => by rw [a4]⟩
    intro j c hj
    rw [a3] at hj
    exact ⟨c, hj, rfl, rfl⟩
  constructor
  · intro i c pin hc hp
    have := initCtrlrs_hasVector st.mmio st.ioapic _ 0 (initEntry st) st1 hloop hreg0
      (by rintro irq ⟨j, _, _, hj, _⟩; omega)
      (c.baseIRQ + pin) ⟨i, c, pin, by
        have := getElem?_lt _ _ _ hc
        omega, hc, hp, rfl⟩
    unfold irqHasVector at this ⊢
    rw [hvm, hiv]
    exact this
  · intro hboot hd
    have hinv0 : tableInv (initEntry st) (irqGiven st.mmio st.ioapic 0) := by
      constructor
      · intro v slot hv ht
        rw [a1] at hv
        exact absurd ht (hboot slot (List.getElem?_mem hv))
      · rintro irq ⟨j, _, _, hj, _⟩
        omega
    obtain ⟨⟨hfwd, _⟩, _⟩ :=
      initCtrlrs_inv st.mmio st.ioapic hd _ 0 (initEntry st) st1 hloop hreg0 hinv0
    intro v1 v2 s1 s2 h1 h2 t1 t2 he
    rw [hvm] at h1 h2
    have e1 := (hfwd v1 s1 h1 t1).1
    have e2 := (hfwd v2 s2 h2 t2).1
    rw [he, e2] at e1
    injection e1 with e1
    exact e1.symm

theorem boot8_init : ioapic_init boot8 = some booted8 := by
  rfl

theorem boot8_no_interrupt :
    ∀ slot : VectorInfo, slot ∈ boot8.VectorMap → slot.type ≠ VecType.vt_Interrupt := by
  decide

theorem boot8_disjoint : rangesDisjoint boot8.mmio boot8.ioapic := by
  intro i j ci cj p q hij _ hcj
  have : boot8.ioapic[j]? = none := by
    apply List.getElem?_eq_none
    show [ctrlr8].length ≤ j
    simp only [List.length_singleton]
    omega
  rw [this] at hcj
  cases hcj

/-- Witness of C6 (amended): the end-to-end scenario. -/
theorem C6_reverse_index_consistent_for_disjoint_ranges_witness :
    (∀ (i : Nat) (c : IrqController) (pin : Nat), boot8.ioapic[i]? = some c →
      pin < lineCount boot8.mmio c → irqHasVector booted8 (c.baseIRQ + pin)) ∧
    irqsDistinct booted8 :=
  ⟨(C6_reverse_index_consistent_for_disjoint_ranges boot8 booted8 boot8_init).1,
   (C6_reverse_index_consistent_for_disjoint_ranges boot8 booted8 boot8_init).2
     boot8_no_interrupt boot8_disjoint⟩

/-- Counterexample to C6 as stated: two controllers registered with
`ioapic_register`, both with `baseIRQ = 0` and one line each; after
`ioapic_init` slots 0 and 1 are both `Interrupt` slots with `irq = 0`. -/
theorem C6_overlapping_controllers_share_an_irq :
    (twoOverlapping.bind ioapic_init).map
      (fun s => (s.VectorMap.map (fun v => (v.type, v.irq, v.ctrlr)), s.IrqVector 0)) =
      some ([(VecType.vt_Interrupt, 0, some 0), (VecType.vt_Interrupt, 0, some 1)], some 1) := by
  decide

/-! ## Polarity and trigger mode are not touched by initialisation -/

theorem rmwEntry_polTrig (m : Nat → RegFile) (c : IrqController) (pin : Nat)
    (f : IoAPIC_Entry → IoAPIC_Entry)
    (hf : ∀ lo hi : Nat,
      bitsGet ((f { lo := lo % 2 ^ 32, hi := hi }).lo % 2 ^ 32) 13 1 = bitsGet lo 13 1 ∧
      bitsGet ((f { lo := lo % 2 ^ 32, hi := hi }).lo % 2 ^ 32) 15 1 = bitsGet lo 15 1)
    (va q : Nat) :
    polTrig (rmwEntry m c pin f) va q = polTrig m va q := by
  unfold polTrig
  by_cases hva : va = c.va
  · subst hva
    have h3 : IOAPIC_ENTRYLO q ≠ IOAPIC_ENTRYHI pin % 2 ^ 32 := entry_lo_ne_sel_hi q pin
    by_cases hq : IOAPIC_ENTRYLO q = IOAPIC_ENTRYLO pin % 2 ^ 32
    · have : (rmwEntry m c pin f c.va).regs (IOAPIC_ENTRYLO q) =
          (f { lo := (m c.va).regs (IOAPIC_ENTRYLO q) % 2 ^ 32,
               hi := (m c.va).regs (IOAPIC_ENTRYHI pin % 2 ^ 32) % 2 ^ 32 }).lo % 2 ^ 32 := by
        simp only [rmwEntry, ← hq, Function.update_same, Function.update_noteq h3]
      rw [this, (hf _ _).1, (hf _ _).2]
    · rw [rmwEntry_regs_other m c pin f _ hq h3]
  · rw [rmwEntry_other_window _ _ _ _ _ hva]

theorem set_masked_keeps_polTrig (v : Nat) (lo hi : Nat) :
    bitsGet ((IoAPIC_Entry.set_masked { lo := lo % 2 ^ 32, hi := hi } v).lo % 2 ^ 32) 13 1 =
        bitsGet lo 13 1 ∧
    bitsGet ((IoAPIC_Entry.set_masked { lo := lo % 2 ^ 32, hi := hi } v).lo % 2 ^ 32) 15 1 =
        bitsGet lo 15 1 := by
  simp [IoAPIC_Entry.set_masked, bitsGet_mod32, bitsGet_bitsSet_below]

theorem routedEntry_keeps_polTrig (vec lapic : Nat) (lo hi : Nat) :
    bitsGet ((routedEntry { lo := lo % 2 ^ 32, hi := hi } vec lapic).lo % 2 ^ 32) 13 1 =
        bitsGet lo 13 1 ∧
    bitsGet ((routedEntry { lo := lo % 2 ^ 32, hi := hi } vec lapic).lo % 2 ^ 32) 15 1 =
        bitsGet lo 15 1 := by
  have h := routedEntry_lo_fields vec lapic lo hi 0
  exact ⟨h.2.2.2.2.1, h.2.2.2.2.2⟩

theorem allocateLines_polTrig (ci : Nat) (c : IrqController) :
    ∀ (k pin : Nat) (st st' : KState), allocateLines ci c k pin st = some st' →
      ∀ va q : Nat, polTrig st'.mmio va q = polTrig st.mmio va q := by
  intro k
  induction k with
  | zero =>
    intro pin st st' h va q
    simp only [allocateLines, Option.some.injEq] at h
    rw [← h]
  | succ k ih =>
    intro pin st st' h va q
    simp only [allocateLines] at h
    cases h1 : allocateVector st ci c pin with
    | none => simp [h1] at h
    | some st1 =>
      simp only [h1] at h
      obtain ⟨v1, slot1, cc, _, _, _, _, _, hst1⟩ := allocateVector_some _ _ _ _ _ h1
      rw [ih (pin + 1) st1 st' h va q, hst1]
      simp only [allocated, ioapic_disable_eq]
      exact rmwEntry_polTrig _ _ _ _ (set_masked_keeps_polTrig 1) va q

theorem allocateLines_countInterrupt (ci : Nat) (c : IrqController) :
    ∀ (k pin : Nat) (st st' : KState), allocateLines ci c k pin st = some st' →
      countInterrupt st'.VectorMap = countInterrupt st.VectorMap + k := by
  intro k
  induction k with
  | zero =>
    intro pin st st' h
    simp only [allocateLines, Option.some.injEq] at h
    rw [← h]; rfl
  | succ k ih =>
    intro pin st st' h
    simp only [allocateLines] at h
    cases h1 : allocateVector st ci c pin with
    | none => simp [h1] at h
    | some st1 =>
      simp only [h1] at h
      obtain ⟨v1, slot1, cc, _, hs1, ht1, _, _, hst1⟩ := allocateVector_some _ _ _ _ _ h1
      rw [ih (pin + 1) st1 st' h, hst1]
      have hlt := getElem?_lt _ _ _ hs1
      have hget : st.VectorMap[v1] = slot1 := by
        rw [List.getElem?_eq_getElem hlt] at hs1
        injection hs1
      simp only [allocated, countInterrupt]
      rw [List.countP_set _ _ _ _ hlt, hget]
      simp [ht1, boundSlot]
      omega

theorem routeVector_polTrig (st st' : KState) (vec : Nat) (h : routeVector st vec = some st')
    (va q : Nat) : polTrig st'.mmio va q = polTrig st.mmio va q := by
  cases hs : st.VectorMap[vec]? with
  | none => simp [routeVector, hs] at h
  | some slot =>
    by_cases ht : slot.type = VecType.vt_Interrupt
    · cases hc : ctrlrOf st slot with
      | none => simp [routeVector, hs, ht, hc] at h
      | some c =>
        rw [routeVector_interrupt st vec slot c hs ht hc] at h
        cases he : slot.enabled
        · simp only [he, if_true, Option.some.injEq] at h
          rw [← h]
          exact rmwEntry_polTrig _ _ _ _ (routedEntry_keeps_polTrig vec st.cpu0_lapic_id) va q
        · simp [he] at h
    · simp only [routeVector, hs, ne_eq, ht, not_false_eq_true, if_true, Option.some.injEq] at h
      rw [← h]

theorem routeLoop_polTrig :
    ∀ (k vec : Nat) (st st' : KState), routeLoop k vec st = some st' →
      ∀ va q : Nat, polTrig st'.mmio va q = polTrig st.mmio va q := by
  intro k
  induction k with
  | zero =>
    intro vec st st' h va q
    simp only [routeLoop, Option.some.injEq] at h
    rw [← h]
  | succ k ih =>
    intro vec st st' h va q
    simp only [routeLoop] at h
    cases h1 : routeVector st vec with
    | none => simp [h1] at h
    | some st1 =>
      simp only [h1] at h
      rw [ih (vec + 1) st1 st' h va q, routeVector_polTrig st st1 vec h1 va q]

theorem ctrlrOf_congr (st st' : KState) (slot : VectorInfo) (h : st'.ioapic = st.ioapic) :
    ctrlrOf st' slot = ctrlrOf st slot := by
  simp only [ctrlrOf, h]

theorem routeLoop_ok :
    ∀ (k vec : Nat) (st : KState),
      (∀ (v : Nat) (slot : VectorInfo), st.VectorMap[v]? = some slot →
        slot.type = VecType.vt_Interrupt →
        (∃ c : IrqController, ctrlrOf st slot = some c) ∧ slot.enabled = false) →
      vec + k ≤ st.VectorMap.length → ∃ st', routeLoop k vec st = some st' := by
  intro k
  induction k with
  | zero => intro vec st _ _; exact ⟨st, rfl⟩
  | succ k ih =>
    intro vec st hready hlen
    have hlt : vec < st.VectorMap.length := by omega
    have hs : st.VectorMap[vec]? = some st.VectorMap[vec] := List.getElem?_eq_getElem hlt
    have hstep : ∃ st1, routeVector st vec = some st1 := by
      by_cases ht : (st.VectorMap[vec]).type = VecType.vt_Interrupt
      · obtain ⟨⟨c, hc⟩, he⟩ := hready vec _ hs ht
        rw [routeVector_interrupt st vec _ c hs ht hc]
        simp only [he, if_true]
        exact ⟨_, rfl⟩
      · simp only [routeVector, hs, ne_eq, ht, not_false_eq_true, if_true]
        exact ⟨_, rfl⟩
    obtain ⟨st1, h1⟩ := hstep
    obtain ⟨f1, _, f3, _, _⟩ := routeVector_frame st st1 vec h1
    have hready1 : ∀ (v : Nat) (slot : VectorInfo), st1.VectorMap[v]? = some slot →
        slot.type = VecType.vt_Interrupt →
        (∃ c : IrqController, ctrlrOf st1 slot = some c) ∧ slot.enabled = false := by
      intro v slot hv ht
      rw [f1] at hv
      rw [ctrlrOf_congr st st1 slot f3]
      exact hready v slot hv ht
    obtain ⟨st', h'⟩ := ih (vec + 1) st1 hready1 (by rw [f1]; omega)
    exact ⟨st', by simp only [routeLoop, h1, h']⟩

theorem entryOf_window (m : Nat → RegFile) (c c' : IrqController) (q : Nat) (h : c'.va = c.va) :
    entryOf m c' q = entryOf m c q := by
  simp only [entryOf, h]

theorem rmwEntry_entry_elsewhere (m : Nat → RegFile) (c cc : IrqController) (pin p : Nat)
    (f : IoAPIC_Entry → IoAPIC_Entry)
    (h : c.va ≠ cc.va ∨ (IOAPIC_ENTRYHI pin < 2 ^ 32 ∧ pin ≠ p)) :
    entryOf (rmwEntry m c pin f) cc p = entryOf m cc p := by
  by_cases hva : cc.va = c.va
  · rcases h with h | ⟨hfit, h⟩
    · exact absurd hva.symm h
    · rw [entryOf_window _ c cc p hva, entryOf_window _ c cc p hva]
      exact rmwEntry_entry_other m c pin p f hfit (Ne.symm h)
  · simp only [entryOf, rmwEntry_other_window m c pin f cc.va hva]

theorem routeLoop_entry_untouched (cc : IrqController) (p : Nat) :
    ∀ (k vec : Nat) (st st' : KState), routeLoop k vec st = some st' →
      (∀ (v : Nat) (slot : VectorInfo) (c : IrqController), vec ≤ v →
        st.VectorMap[v]? = some slot → slot.type = VecType.vt_Interrupt →
        ctrlrOf st slot = some c → c.va ≠ cc.va ∨
          (IOAPIC_ENTRYHI (pinOf slot.irq c.baseIRQ) < 2 ^ 32 ∧ pinOf slot.irq c.baseIRQ ≠ p)) →
      entryOf st'.mmio cc p = entryOf st.mmio cc p := by
  intro k
  induction k with
  | zero =>
    intro vec st st' h _
    simp only [routeLoop, Option.some.injEq] at h
    rw [← h]
  | succ k ih =>
    intro vec st st' h hother
    simp only [routeLoop] at h
    cases h1 : routeVector st vec with
    | none => simp [h1] at h
    | some st1 =>
      simp only [h1] at h
      obtain ⟨f1, _, f3, _, _⟩ := routeVector_frame st st1 vec h1
      have hother1 : ∀ (v : Nat) (slot : VectorInfo) (c : IrqController), vec + 1 ≤ v →
          st1.VectorMap[v]? = some slot → slot.type = VecType.vt_Interrupt →
          ctrlrOf st1 slot = some c → c.va ≠ cc.va ∨
            (IOAPIC_ENTRYHI (pinOf slot.irq c.baseIRQ) < 2 ^ 32 ∧
              pinOf slot.irq c.baseIRQ ≠ p) := by
        intro v slot c hv hs ht hc
        rw [f1] at hs
        rw [ctrlrOf_congr st st1 slot f3] at hc
        exact hother v slot c (by omega) hs ht hc
      rw [ih (vec + 1) st1 st' h hother1]
      cases hs : st.VectorMap[vec]? with
      | none => simp [routeVector, hs] at h1
      | some slot =>
        by_cases ht : slot.type = VecType.vt_Interrupt
        · cases hc : ctrlrOf st slot with
          | none => simp [routeVector, hs, ht, hc] at h1
          | some c =>
            rw [routeVector_interrupt st vec slot c hs ht hc] at h1
            cases he : slot.enabled
            · simp only [he, if_true, Option.some.injEq] at h1
              rw [← h1]
              exact rmwEntry_entry_elsewhere _ c cc _ p _
                (hother vec slot c (Nat.le_refl _) hs ht hc)
            · simp [he] at h1
        · simp only [routeVector, hs, ne_eq, ht, not_false_eq_true, if_true,
            Option.some.injEq] at h1
          rw [← h1]

theorem routeLoop_split :
    ∀ (k vec : Nat) (st st' : KState) (v : Nat), routeLoop k vec st = some st' →
      vec ≤ v → v < vec + k →
      ∃ sa sb : KState, routeLoop (v - vec) vec st = some sa ∧ routeVector sa v = some sb ∧
        routeLoop (vec + k - (v + 1)) (v + 1) sb = some st' := by
  intro k
  induction k with
  | zero => intro vec st st' v _ h1 h2; omega
  | succ k ih =>
    intro vec st st' v h hv1 hv2
    simp only [routeLoop] at h
    cases h1 : routeVector st vec with
    | none => simp [h1] at h
    | some st1 =>
      simp only [h1] at h
      by_cases hvv : v = vec
      · subst hvv
        refine ⟨st, st1, by simp [routeLoop], h1, ?_⟩
        have : v + (k + 1) - (v + 1) = k := by omega
        rw [this]; exact h
      · obtain ⟨sa, sb, ha, hb, hc⟩ := ih (vec + 1) st1 st' v h (by omega) (by omega)
        refine ⟨sa, sb, ?_, hb, ?_⟩
        · have : v - vec = (v - (vec + 1)) + 1 := by omega
          rw [this]
          simp only [routeLoop, h1]
          exact ha
        · have : vec + (k + 1) - (v + 1) = vec + 1 + k - (v + 1) := by omega
          rw [this]; exact hc

theorem routeVector_entry (st sb : KState) (v : Nat) (slot : VectorInfo) (c : IrqController)
    (hs : st.VectorMap[v]? = some slot) (ht : slot.type = VecType.vt_Interrupt)
    (hc : ctrlrOf st slot = some c) (hfit : IOAPIC_ENTRYHI (pinOf slot.irq c.baseIRQ) < 2 ^ 32)
    (h : routeVector st v = some sb) :
    (entryOf sb.mmio c (pinOf slot.irq c.baseIRQ)).vector = v % 256 ∧
    (entryOf sb.mmio c (pinOf slot.irq c.baseIRQ)).deliverMode = 0 ∧
    (entryOf sb.mmio c (pinOf slot.irq c.baseIRQ)).destMode = 0 ∧
    (entryOf sb.mmio c (pinOf slot.irq c.baseIRQ)).masked = 1 ∧
    (entryOf sb.mmio c (pinOf slot.irq c.baseIRQ)).dest = st.cpu0_lapic_id % 256 := by
  rw [routeVector_interrupt st v slot c hs ht hc] at h
  cases he : slot.enabled
  · simp only [he, if_true, Option.some.injEq] at h
    rw [← h]
    simp only []
    rw [rmwEntry_entry_same _ _ _ _ hfit]
    have hf := routedEntry_lo_fields v st.cpu0_lapic_id
      ((st.mmio c.va).regs (IOAPIC_ENTRYLO (pinOf slot.irq c.baseIRQ)))
      ((st.mmio c.va).regs (IOAPIC_ENTRYHI (pinOf slot.irq c.baseIRQ)) % 2 ^ 32)
    have hh := routedEntry_hi_fields v st.cpu0_lapic_id
      ((st.mmio c.va).regs (IOAPIC_ENTRYLO (pinOf slot.irq c.baseIRQ)) % 2 ^ 32)
      ((st.mmio c.va).regs (IOAPIC_ENTRYHI (pinOf slot.irq c.baseIRQ)))
    exact ⟨(hf _).2.1, (hf _).2.2.1, (hf _).2.2.2.1, (hf _).1, hh _⟩
  · simp [he] at h

theorem maxRedir_le (ver : Nat) : maxRedir ver ≤ 255 := by
  unfold maxRedir IOAPIC_MAXREDIR_MASK IOAPIC_MAXREDIR_SHIFT
  rw [Nat.shiftRight_eq_div_pow]
  have h : ver &&& 0xff0000 ≤ 0xff0000 := Nat.and_le_right
  have := Nat.div_le_div_right (c := 2 ^ 16) h
  norm_num at this ⊢
  exact this

theorem lineCount_le (m : Nat → RegFile) (c : IrqController) : lineCount m c ≤ 256 := by
  unfold lineCount
  have := maxRedir_le ((m c.va).regs IOAPIC_VERSION % 2 ^ 32)
  omega

theorem pin_fits (p : Nat) (hp : p < 256) : IOAPIC_ENTRYHI p < 2 ^ 32 := by
  unfold IOAPIC_ENTRYHI; omega

/-! ## ioapic_init for one controller -/

/-- The table and the registers after `ioapic_ctrlr_init` of the only
registered controller, run on a table without `Interrupt` slots. -/
theorem single_ctrlr_init (st : KState) (c : IrqController) (hreg : st.ioapic = [c])
    (hboot : ∀ slot : VectorInfo, slot ∈ st.VectorMap → slot.type ≠ VecType.vt_Interrupt)
    (hu : lineCount st.mmio c ≤ countUnbound st.VectorMap) :
    ∃ st1 : KState, initCtrlrs st.ioapic.length 0 (initEntry st) = some st1 ∧
      st1.ioapic = [{ c with nIRQ := lineCount st.mmio c }] ∧
      st1.cpu0_lapic_id = st.cpu0_lapic_id ∧
      st1.VectorMap.length = st.VectorMap.length ∧
      countInterrupt st1.VectorMap = countInterrupt st.VectorMap + lineCount st.mmio c ∧
      (∀ va q : Nat, polTrig st1.mmio va q = polTrig st.mmio va q) ∧
      (∀ pin : Nat, pin < lineCount st.mmio c → irqHasVector st1 (c.baseIRQ + pin)) ∧
      (∀ (v : Nat) (slot' : VectorInfo), st1.VectorMap[v]? = some slot' →
        slot'.type = VecType.vt_Interrupt →
        ∃ (slot0 : VectorInfo) (p : Nat), st.VectorMap[v]? = some slot0 ∧
          slot0.type = VecType.vt_Unbound ∧ p < lineCount st.mmio c ∧
          slot' = boundSlot slot0 (c.baseIRQ + p) 0 ∧
          st1.IrqVector (c.baseIRQ + p) = some v) := by
  obtain ⟨a1, a2, a3, a4, a5, a6⟩ := initEntry_fields st
  have hc0 : (initEntry st).ioapic[0]? = some c := by rw [a3, hreg]; rfl
  have hf := ctrlrInitHead_fields (initEntry st) 0 c
  rw [a4] at hf
  have hc1 : (ctrlrInitHead (initEntry st) 0 c).1.ioapic[0]? =
      some { c with nIRQ := lineCount st.mmio c } := by
    rw [hf.2.2.1, List.getElem?_set_self (getElem?_lt _ _ _ hc0)]
  obtain ⟨st1, h1⟩ := allocateLines_ok 0 c _ (lineCount st.mmio c) 0 _ hc1
    (by rw [hf.1, a1]; exact hu)
  have hinit : ioapic_ctrlr_init (initEntry st) 0 = some st1 := by
    rw [ioapic_ctrlr_init_eq _ 0 c hc0, a4]; exact h1
  obtain ⟨i1, _, _, _, i5, i6, _, _, i9, i10, _⟩ := allocateLines_spec 0 c _ _ _ _ h1
  rw [hf.1, a1] at i9 i10 i6
  refine ⟨st1, ?_, ?_, ?_, i6, ?_, ?_, ?_, ?_⟩
  · rw [hreg]
    simp only [List.length_singleton, initCtrlrs, hinit]
  · rw [i1, hf.2.2.1, a3, hreg]; rfl
  · rw [i5, hf.2.2.2.2.2.1, a5]
  · rw [allocateLines_countInterrupt 0 c _ _ _ _ h1, hf.1, a1]
  · intro va q
    rw [allocateLines_polTrig 0 c _ _ _ _ h1 va q]
    simp only [polTrig, hf.2.2.2.2.2.2.2 va]
  · intro pin hp
    obtain ⟨v, slot0, _, _, hb, hiv⟩ := i10 pin (Nat.zero_le _) (by omega)
    exact ⟨v, _, hiv, hb, rfl, rfl⟩
  · intro v slot' hv ht
    rcases i9 v slot' hv with hsame | ⟨slot0, p, h0, hu0, _, hp, hsl, hiv⟩
    · exact absurd ht (hboot slot' (List.getElem?_mem hsame))
    · exact ⟨slot0, p, h0, hu0, by omega, hsl, hiv⟩

/-- C5: with one registered controller whose version register reports `n`
lines, a table without `Interrupt` slots that holds at least `n` `Unbound`
slots and at most 256 slots, and a local-APIC id of CPU 0 that fits its 8-bit
field, `ioapic_init` completes and leaves exactly `n` `Interrupt` slots, one
for every line; each of them was `Unbound`, has `enabled = 0` and trigger mode
and polarity from-bus, and the routing entry of its line has target vector =
the index of the slot, delivery mode 0, destination mode 0, masked = 1,
destination = the local-APIC id of CPU 0, and the polarity and trigger mode
the hardware held before. -/
theorem C5_init_binds_and_routes_every_line (st : KState) (c : IrqController)
    (hreg : st.ioapic = [c])
    (hboot : ∀ slot : VectorInfo, slot ∈ st.VectorMap → slot.type ≠ VecType.vt_Interrupt)
    (hu : lineCount st.mmio c ≤ countUnbound st.VectorMap)
    (hlen : st.VectorMap.length ≤ 256) (hid : st.cpu0_lapic_id < 256) :
    ∃ st', ioapic_init st = some st' ∧
      countInterrupt st'.VectorMap = lineCount st.mmio c ∧
      (∀ pin : Nat, pin < lineCount st.mmio c → irqHasVector st' (c.baseIRQ + pin)) ∧
      (∀ (v : Nat) (slot' : VectorInfo), st'.VectorMap[v]? = some slot' →
        slot'.type = VecType.vt_Interrupt →
        (∃ slot0 : VectorInfo, st.VectorMap[v]? = some slot0 ∧
          slot0.type = VecType.vt_Unbound) ∧
        slot'.enabled = false ∧ slot'.mode = VecMode.VEC_MODE_FROMBUS ∧
        slot'.level = VecLevel.VEC_LEVEL_FROMBUS ∧
        (∃ pin : Nat, pin < lineCount st.mmio c ∧ slot'.irq = c.baseIRQ + pin) ∧
        (entryOf st'.mmio c (slot'.irq - c.baseIRQ)).vector = v ∧
        (entryOf st'.mmio c (slot'.irq - c.baseIRQ)).deliverMode = 0 ∧
        (entryOf st'.mmio c (slot'.irq - c.baseIRQ)).destMode = 0 ∧
        (entryOf st'.mmio c (slot'.irq - c.baseIRQ)).masked = 1 ∧
        (entryOf st'.mmio c (slot'.irq - c.baseIRQ)).dest = st.cpu0_lapic_id ∧
        (entryOf st'.mmio c (slot'.irq - c.baseIRQ)).polarity =
          (entryOf st.mmio c (slot'.irq - c.baseIRQ)).polarity ∧
        (entryOf st'.mmio c (slot'.irq - c.baseIRQ)).triggerMode =
          (entryOf st.mmio c (slot'.irq - c.baseIRQ)).triggerMode) := by
  obtain ⟨st1, hloop, hio, hlap, hl1, hcnt, hpt, hhas, hslots⟩ :=
    single_ctrlr_init st c hreg hboot hu
  have hctrl : ∀ (v : Nat) (slot : VectorInfo), (routeEntry st1).VectorMap[v]? = some slot →
      slot.type = VecType.vt_Interrupt →
      ctrlrOf (routeEntry st1) slot = some { c with nIRQ := lineCount st.mmio c } ∧
      slot.enabled = false := by
    intro v slot hv ht
    obtain ⟨slot0, p, _, _, _, hsl, _⟩ := hslots v slot hv ht
    subst hsl
    constructor
    · show (routeEntry st1).ioapic[0]? = _
      show st1.ioapic[0]? = _
      rw [hio]; rfl
    · rfl
  obtain ⟨st', hroute⟩ := routeLoop_ok (routeEntry st1).VectorMap.length 0 (routeEntry st1)
    (fun v slot hv ht => ⟨⟨_, (hctrl v slot hv ht).1⟩, (hctrl v slot hv ht).2⟩)
    (by omega)
  obtain ⟨r1, r2, r3, r4, _⟩ := routeLoop_frame _ _ _ _ hroute
  have hvm : st'.VectorMap = st1.VectorMap := r1
  have hiv : st'.IrqVector = st1.IrqVector := r2
  have hzero : countInterrupt st.VectorMap = 0 := by
    unfold countInterrupt
    rw [List.countP_eq_zero]
    intro a ha
    simpa using hboot a ha
  refine ⟨st', ioapic_init_some st st1 st' hloop hroute, ?_, ?_, ?_⟩
  · rw [hvm, hcnt, hzero, Nat.zero_add]
  · intro pin hp
    have := hhas pin hp
    unfold irqHasVector at this ⊢
    rw [hvm, hiv]; exact this
  · intro v slot' hv ht
    rw [hvm] at hv
    obtain ⟨slot0, p, h0, hu0, hp, hsl, hrev⟩ := hslots v slot' hv ht
    have hpin : slot'.irq - c.baseIRQ = p := by
      rw [hsl]; simp [boundSlot]
    have hvlt : v < st.VectorMap.length := getElem?_lt _ _ _ h0
    obtain ⟨sa, sb, ha, hb, hrest⟩ := routeLoop_split _ 0 _ _ v hroute (Nat.zero_le _)
      (by show v < 0 + st1.VectorMap.length; omega)
    obtain ⟨s1, _, s3, s4, _⟩ := routeLoop_frame _ _ _ _ ha
    obtain ⟨t1, _, t3, _, _⟩ := routeVector_frame _ _ _ hb
    have hsav : sa.VectorMap[v]? = some slot' := by rw [s1]; exact hv
    have hsac : ctrlrOf sa slot' = some { c with nIRQ := lineCount st.mmio c } := by
      rw [ctrlrOf_congr _ sa slot' s3]
      exact (hctrl v slot' hv ht).1
    have hp256 : p < 256 := lt_of_lt_of_le hp (lineCount_le st.mmio c)
    have hpinOf : pinOf slot'.irq c.baseIRQ = p := by
      rw [hsl]; exact pinOf_add c.baseIRQ p (by omega)
    have hent := routeVector_entry sa sb v slot' _ hsav ht hsac
      (by show IOAPIC_ENTRYHI (pinOf slot'.irq c.baseIRQ) < 2 ^ 32
          rw [hpinOf]; exact pin_fits p hp256) hb
    have hent : (entryOf sb.mmio { c with nIRQ := lineCount st.mmio c } p).vector = v % 256 ∧
        (entryOf sb.mmio { c with nIRQ := lineCount st.mmio c } p).deliverMode = 0 ∧
        (entryOf sb.mmio { c with nIRQ := lineCount st.mmio c } p).destMode = 0 ∧
        (entryOf sb.mmio { c with nIRQ := lineCount st.mmio c } p).masked = 1 ∧
        (entryOf sb.mmio { c with nIRQ := lineCount st.mmio c } p).dest =
          sa.cpu0_lapic_id % 256 := by
      have h := hent
      simp only [] at h
      rw [hpinOf] at h
      exact h
    have hkeep : entryOf st'.mmio { c with nIRQ := lineCount st.mmio c } p =
        entryOf sb.mmio { c with nIRQ := lineCount st.mmio c } p := by
      apply routeLoop_entry_untouched _ p _ _ _ _ hrest
      intro w slotw cw hw hsw htw hcw
      right
      rw [t1, s1] at hsw
      have hcw' := (hctrl w slotw hsw htw).1
      rw [← ctrlrOf_congr (routeEntry st1) sb slotw (by rw [t3, s3])] at hcw'
      rw [hcw] at hcw'
      injection hcw' with hcw'
      obtain ⟨slot0w, pw, _, _, hpw256, hslw, hrevw⟩ := hslots w slotw hsw htw
      have hpw256 : pw < 256 := lt_of_lt_of_le hpw256 (lineCount_le st.mmio c)
      subst hcw' hslw
      have hpo : pinOf (boundSlot slot0w (c.baseIRQ + pw) 0).irq c.baseIRQ = pw :=
        pinOf_add c.baseIRQ pw (by omega)
      refine ⟨?_, ?_⟩
      · show IOAPIC_ENTRYHI (pinOf (boundSlot slot0w (c.baseIRQ + pw) 0).irq c.baseIRQ) < 2 ^ 32
        rw [hpo]; exact pin_fits pw hpw256
      · show pinOf (boundSlot slot0w (c.baseIRQ + pw) 0).irq c.baseIRQ ≠ p
        rw [hpo]
        intro hpw
        rw [hpw, hrev] at hrevw
        injection hrevw with hrevw
        omega
    have hwin : ∀ (m : Nat → RegFile) (q : Nat),
        entryOf m c q = entryOf m { c with nIRQ := lineCount st.mmio c } q := fun _ _ => rfl
    have hfinal : entryOf st'.mmio c (slot'.irq - c.baseIRQ) =
        entryOf sb.mmio { c with nIRQ := lineCount st.mmio c } p := by
      rw [hpin, hwin, hkeep]
    have hpol := hpt c.va (slot'.irq - c.baseIRQ)
    have hpol' := routeLoop_polTrig _ _ _ _ hroute c.va (slot'.irq - c.baseIRQ)
    have hpt' : polTrig st'.mmio c.va (slot'.irq - c.baseIRQ) =
        polTrig st.mmio c.va (slot'.irq - c.baseIRQ) := by
      rw [hpol', ← hpol]; rfl
    have hlapic : sa.cpu0_lapic_id = st.cpu0_lapic_id := by
      rw [s4, ← hlap]; rfl
    refine ⟨⟨slot0, h0, hu0⟩, by rw [hsl]; rfl, by rw [hsl]; rfl, by rw [hsl]; rfl,
      ⟨p, hp, by rw [hsl]; rfl⟩, ?_, ?_, ?_, ?_, ?_, ?_, ?_⟩
    · rw [hfinal, hent.1]
      exact Nat.mod_eq_of_lt (by omega)
    · rw [hfinal, hent.2.1]
    · rw [hfinal, hent.2.2.1]
    · rw [hfinal, hent.2.2.2.1]
    · rw [hfinal, hent.2.2.2.2, hlapic]
      exact Nat.mod_eq_of_lt hid
    · exact congrArg Prod.fst hpt'
    · exact congrArg Prod.snd hpt'

/-! ## Lazy unmask -/

theorem initCtrlrs_unmasked :
    ∀ (k i : Nat) (st st' : KState), initCtrlrs k i st = some st' →
      ∀ (v : Nat) (slot' : VectorInfo), st'.VectorMap[v]? = some slot' →
        ∃ slot0 : VectorInfo, st.VectorMap[v]? = some slot0 ∧
          slot'.unmasked = slot0.unmasked := by
  intro k
  induction k with
  | zero =>
    intro i st st' h v slot' hv
    simp only [initCtrlrs, Option.some.injEq] at h
    subst h
    exact ⟨slot', hv, rfl⟩
  | succ k ih =>
    intro i st st' h v slot' hv
    simp only [initCtrlrs] at h
    cases h1 : ioapic_ctrlr_init st i with
    | none => simp [h1] at h
    | some st1 =>
      simp only [h1] at h
      obtain ⟨slot1, hv1, hu1⟩ := ih (i + 1) st1 st' h v slot' hv
      cases hc : st.ioapic[i]? with
      | none => simp [ioapic_ctrlr_init, hc] at h1
      | some c =>
        rw [ioapic_ctrlr_init_eq st i c hc] at h1
        obtain ⟨_, _, _, _, _, _, _, _, i9, _, _⟩ := allocateLines_spec i c _ _ _ _ h1
        rw [(ctrlrInitHead_fields st i c).1] at i9
        rcases i9 v slot1 hv1 with hsame | ⟨slot0, p, h0, _, _, _, hsl, _⟩
        · exact ⟨slot1, hsame, hu1⟩
        · exact ⟨slot0, h0, by rw [hu1, hsl]; rfl⟩

theorem ioapic_init_unmasked (st st' : KState) (h : ioapic_init st = some st')
    (v : Nat) (slot' : VectorInfo) (hv : st'.VectorMap[v]? = some slot') :
    ∃ slot0 : VectorInfo, st.VectorMap[v]? = some slot0 ∧ slot'.unmasked = slot0.unmasked := by
  obtain ⟨st1, hloop, hroute⟩ := ioapic_init_split st st' h
  obtain ⟨r1, _⟩ := routeLoop_frame _ _ _ _ hroute
  rw [r1] at hv
  have := initCtrlrs_unmasked _ _ _ _ hloop v slot' hv
  rw [(initEntry_fields st).1] at this
  exact this

theorem irq_MapInterrupt_slot (st : KState) (irq v : Nat) (vector : VectorInfo)
    (h : irq_MapInterrupt st irq = some (v, vector)) : st.VectorMap[v]? = some vector := by
  unfold irq_MapInterrupt at h
  cases hv : st.IrqVector irq with
  | none => simp [hv] at h
  | some w =>
    simp only [hv] at h
    cases hs : st.VectorMap[w]? with
    | none => simp [hs] at h
    | some s =>
      simp only [hs, Option.some.injEq, Prod.mk.injEq] at h
      obtain ⟨rfl, rfl⟩ := h
      exact hs

theorem irq_deliver_eq (st : KState) (irq v : Nat) (vector : VectorInfo)
    (hmap : irq_MapInterrupt st irq = some (v, vector)) :
    irq_deliver st irq =
      some { st with VectorMap := st.VectorMap.set v
                       { vector with pending := true, stallQ := vector.stallQ.tail } } := by
  simp only [irq_deliver, hmap]

/-- Over any run of waits and deliveries on a mapped IRQ, the unmasked flag is
set exactly when it was set before or some wait has blocked, and the
controller's unmask is called exactly once if the flag was clear and some wait
has blocked, and not at all otherwise. -/
theorem runEvents_unmask (NUM_IRQ irq : Nat) (hirq : irq < NUM_IRQ) (v : Nat) :
    ∀ (evs : List IrqEvent) (st : KState) (vector : VectorInfo),
      irq_MapInterrupt st irq = some (v, vector) →
      ∃ (outs : List Outcome) (st2 : KState) (vector2 : VectorInfo),
        runEvents NUM_IRQ irq evs st = some (outs, st2) ∧
        irq_MapInterrupt st2 irq = some (v, vector2) ∧
        vector2.unmasked = (vector.unmasked || decide (Outcome.abandoned ∈ outs)) ∧
        st2.calls = st.calls ++
          (if vector.unmasked = false ∧ Outcome.abandoned ∈ outs then [CtrlCall.unmask irq]
           else []) := by
  intro evs
  induction evs with
  | nil =>
    intro st vector hmap
    exact ⟨[], st, vector, rfl, hmap, by simp, by simp⟩
  | cons e es ih =>
    intro st vector hmap
    cases e with
    | wait p =>
      cases hp : vector.pending
      · have hstep := wait_not_pending NUM_IRQ st irq p v vector hirq hmap hp
        obtain ⟨outs, st2, vector2, hrun, hmap2, hu2, hc2⟩ :=
          ih _ { vector with stallQ := vector.stallQ ++ [p], unmasked := true }
            (irq_MapInterrupt_set { st with calls := if vector.unmasked = false
              then st.calls ++ [CtrlCall.unmask irq] else st.calls } irq v vector _ hmap)
        refine ⟨Outcome.abandoned :: outs, st2, vector2, ?_, hmap2, ?_, ?_⟩
        · simp only [runEvents, hstep, hrun]
        · rw [hu2]; simp
        · rw [hc2]
          cases hum : vector.unmasked <;> simp
      · have hstep := wait_pending NUM_IRQ st irq p v vector hirq hmap hp
        obtain ⟨outs, st2, vector2, hrun, hmap2, hu2, hc2⟩ :=
          ih _ { vector with pending := false } (irq_MapInterrupt_set st irq v vector _ hmap)
        refine ⟨Outcome.InvResult 0 [] :: outs, st2, vector2, ?_, hmap2, ?_, ?_⟩
        · simp only [runEvents, hstep, hrun]
        · rw [hu2]; simp
        · rw [hc2]; simp
    | deliver =>
      obtain ⟨outs, st2, vector2, hrun, hmap2, hu2, hc2⟩ :=
        ih _ { vector with pending := true, stallQ := vector.stallQ.tail }
          (irq_MapInterrupt_set st irq v vector _ hmap)
      refine ⟨outs, st2, vector2, ?_, hmap2, hu2, hc2⟩
      simp only [runEvents, irq_deliver_eq st irq v vector hmap, hrun]

/-- C3: after `ioapic_init`, run on a table whose unmasked flags are clear (the
zero-initialised static table), the unmasked flag of the vector of any valid
IRQ is false; and over any run of wait invocations and interrupt deliveries on
that IRQ the flag is true exactly when some wait has blocked so far (so it is
set by the first wait that blocks and stays set across every later wait,
blocking or succeeding), and the controller's unmask has been invoked exactly
once if some wait has blocked and not at all otherwise (so only by the wait
that switched the flag). -/
theorem C3_lazy_unmask_once (st0 st1 : KState) (NUM_IRQ irq v : Nat) (vector : VectorInfo)
    (hinit : ioapic_init st0 = some st1)
    (hclear : ∀ slot : VectorInfo, slot ∈ st0.VectorMap → slot.unmasked = false)
    (hirq : irq < NUM_IRQ) (hmap : irq_MapInterrupt st1 irq = some (v, vector)) :
    vector.unmasked = false ∧
    ∀ evs : List IrqEvent,
      ∃ (outs : List Outcome) (st2 : KState) (vector2 : VectorInfo),
        runEvents NUM_IRQ irq evs st1 = some (outs, st2) ∧
        irq_MapInterrupt st2 irq = some (v, vector2) ∧
        vector2.unmasked = decide (Outcome.abandoned ∈ outs) ∧
        st2.calls = st1.calls ++
          (if Outcome.abandoned ∈ outs then [CtrlCall.unmask irq] else []) := by
  have hu : vector.unmasked = false := by
    obtain ⟨slot0, h0, hu0⟩ :=
      ioapic_init_unmasked st0 st1 hinit v vector (irq_MapInterrupt_slot st1 irq v vector hmap)
    rw [hu0]
    exact hclear slot0 (List.getElem?_mem h0)
  refine ⟨hu, ?_⟩
  intro evs
  obtain ⟨outs, st2, vector2, hrun, hmap2, hu2, hc2⟩ :=
    runEvents_unmask NUM_IRQ irq hirq v evs st1 vector hmap
  refine ⟨outs, st2, vector2, hrun, hmap2, ?_, ?_⟩
  · rw [hu2, hu]; simp
  · rw [hc2, hu]; simp

/-- Witness of C5: the end-to-end scenario, one controller with `baseIRQ = 0`
and eight lines over ten unbound slots. -/
theorem C5_init_binds_and_routes_every_line_witness :
    ∃ st', ioapic_init boot8 = some st' ∧
      countInterrupt st'.VectorMap = lineCount boot8.mmio ctrlr8 ∧
      (∀ pin : Nat, pin < lineCount boot8.mmio ctrlr8 →
        irqHasVector st' (ctrlr8.baseIRQ + pin)) :=
  match C5_init_binds_and_routes_every_line boot8 ctrlr8 rfl boot8_no_interrupt
      (by decide) (by decide) (by decide) with
  | ⟨st', h1, h2, h3, _⟩ => ⟨st', h1, h2, h3⟩

/-- Witness of C3: IRQ 3 of the end-to-end scenario, served by slot 3. -/
theorem C3_lazy_unmask_once_witness :
    (boundSlot blankSlot 3 0).unmasked = false ∧
    ∀ evs : List IrqEvent,
      ∃ (outs : List Outcome) (st2 : KState) (vector2 : VectorInfo),
        runEvents 256 3 evs booted8 = some (outs, st2) ∧
        irq_MapInterrupt st2 3 = some (3, vector2) ∧
        vector2.unmasked = decide (Outcome.abandoned ∈ outs) ∧
        st2.calls = booted8.calls ++
          (if Outcome.abandoned ∈ outs then [CtrlCall.unmask 3] else []) :=
  C3_lazy_unmask_once boot8 booted8 256 3 3 (boundSlot blankSlot 3 0) boot8_init
    (by decide) (by decide) (by rfl)

end Coyotos
